import Mathlib

/-!
Object builtins of `topdown/object.go`.

A shallow embedding of the five object builtins (`object.union`, `object.remove`,
`object.filter`, `object.get`, `object.lookup`) and of the helpers
`getObjectKeysParam` and `mergeWithOverwrite`, followed by theorems about them.

The value model (`ast.Term`, `ast.Object`, `ast.Array`, `ast.Set`) and the operand
helpers of package `builtins` are used by `object.go` but are not defined in it; they
are modelled in the namespaces `ast` and `builtins` below.
-/

namespace ast

/-- Modelled from the spec: the value model `ast.Term` / `ast.Value`, which `object.go`
imports but does not define.  It is the closed variant Null, Boolean, Number, String,
Object, Array, Set.  A term is identified with its value (the source location a Go
term carries is never read by `object.go`).  Numbers are integers, which is all that
`object.go` constructs (`ast.IntNumberTerm`).  An Object is the list of its entries in
insertion order, a Set the list of its members in insertion order. -/
inductive Term where
  | Null
  | Boolean (b : Bool)
  | Number (n : Int)
  | String (s : String)
  | Object (kvs : List (Term × Term))
  | Array (xs : List Term)
  | Set (xs : List Term)

/-- Modelled from the spec: an Object is a mapping from Term to Term, kept as the list
of its entries.  Functions assume, but do not require, that keys are unique. -/
abbrev Object := List (Term × Term)

/-- Modelled from the spec: an Array is a 0-indexed ordered sequence of Term. -/
abbrev Array := List Term

/-- Modelled from the spec: a Set is a collection of unique Terms, kept as the list of
its members. -/
abbrev Set := List Term

mutual
/-- Structural (deep) equality of terms is decidable. -/
def Term.decEq : (a b : Term) → Decidable (a = b)
  | .Null, .Null => isTrue rfl
  | .Boolean a, .Boolean b =>
    if h : a = b then isTrue (by rw [h]) else isFalse (by simpa using h)
  | .Number a, .Number b =>
    if h : a = b then isTrue (by rw [h]) else isFalse (by simpa using h)
  | .String a, .String b =>
    if h : a = b then isTrue (by rw [h]) else isFalse (by simpa using h)
  | .Object a, .Object b =>
    match Term.decEqPairs a b with
    | isTrue h => isTrue (by rw [h])
    | isFalse h => isFalse (by simpa using h)
  | .Array a, .Array b =>
    match Term.decEqList a b with
    | isTrue h => isTrue (by rw [h])
    | isFalse h => isFalse (by simpa using h)
  | .Set a, .Set b =>
    match Term.decEqList a b with
    | isTrue h => isTrue (by rw [h])
    | isFalse h => isFalse (by simpa using h)
  | .Null, .Boolean _ | .Null, .Number _ | .Null, .String _ | .Null, .Object _
  | .Null, .Array _ | .Null, .Set _ => isFalse (by simp)
  | .Boolean _, .Null | .Boolean _, .Number _ | .Boolean _, .String _
  | .Boolean _, .Object _ | .Boolean _, .Array _ | .Boolean _, .Set _ => isFalse (by simp)
  | .Number _, .Null | .Number _, .Boolean _ | .Number _, .String _
  | .Number _, .Object _ | .Number _, .Array _ | .Number _, .Set _ => isFalse (by simp)
  | .String _, .Null | .String _, .Boolean _ | .String _, .Number _
  | .String _, .Object _ | .String _, .Array _ | .String _, .Set _ => isFalse (by simp)
  | .Object _, .Null | .Object _, .Boolean _ | .Object _, .Number _
  | .Object _, .String _ | .Object _, .Array _ | .Object _, .Set _ => isFalse (by simp)
  | .Array _, .Null | .Array _, .Boolean _ | .Array _, .Number _
  | .Array _, .String _ | .Array _, .Object _ | .Array _, .Set _ => isFalse (by simp)
  | .Set _, .Null | .Set _, .Boolean _ | .Set _, .Number _
  | .Set _, .String _ | .Set _, .Object _ | .Set _, .Array _ => isFalse (by simp)
/-- Equality of lists of terms (array elements, set members). -/
def Term.decEqList : (a b : List Term) → Decidable (a = b)
  | [], [] => isTrue rfl
  | [], _ :: _ => isFalse (by simp)
  | _ :: _, [] => isFalse (by simp)
  | x :: xs, y :: ys =>
    match Term.decEq x y, Term.decEqList xs ys with
    | isTrue h1, isTrue h2 => isTrue (by rw [h1, h2])
    | isFalse h1, _ => isFalse (by simp [h1])
    | _, isFalse h2 => isFalse (by simp [h2])
/-- Equality of lists of entries (object contents). -/
def Term.decEqPairs : (a b : List (Term × Term)) → Decidable (a = b)
  | [], [] => isTrue rfl
  | [], _ :: _ => isFalse (by simp)
  | _ :: _, [] => isFalse (by simp)
  | (k1, v1) :: xs, (k2, v2) :: ys =>
    match Term.decEq k1 k2, Term.decEq v1 v2, Term.decEqPairs xs ys with
    | isTrue h1, isTrue h2, isTrue h3 => isTrue (by rw [h1, h2, h3])
    | isFalse h1, _, _ => isFalse (by simp [h1])
    | _, isFalse h2, _ => isFalse (by simp [h2])
    | _, _, isFalse h3 => isFalse (by simp [h3])
end

instance : DecidableEq Term := Term.decEq

/-- Modelled from the spec: `ast.StringTerm`, the term of a string. -/
def StringTerm (s : String) : Term := .String s

/-- Modelled from the spec: `ast.IntNumberTerm`, the term of an integer. -/
def IntNumberTerm (i : Int) : Term := .Number i

/-- Modelled from the spec: `ast.NullTerm`, the Null term. -/
def NullTerm : Term := .Null

/-- Modelled from the spec: `ast.NewObject`, the empty Object. -/
def NewObject : Object := []

/-- Modelled from the spec: the keys of an Object, in entry order. -/
def Object.Keys (obj : Object) : List Term := obj.map Prod.fst

/-- Modelled from the spec: `Object.Get`, the value stored under a key, or nothing
(Go `nil`) when the key is absent.  Keys are compared by structural equality. -/
def Object.Get : Object → Term → Option Term
  | [], _ => none
  | (k', v) :: rest, k => if k' = k then some v else Object.Get rest k

/-- Modelled from the spec: `Object.Insert`, which stores a value under a key: the
value of an existing entry is replaced, otherwise a new entry is added. -/
def Object.Insert : Object → Term → Term → Object
  | [], k, v => [(k, v)]
  | (k', v') :: rest, k, v =>
    if k' = k then (k', v) :: rest else (k', v') :: Object.Insert rest k v

/-- Modelled from the spec: `Object.Foreach`, which visits every entry once, here
threading the state the Go callback updates. -/
def Object.Foreach {σ : Type} (obj : Object) (f : Term → Term → σ → σ) (init : σ) : σ :=
  obj.foldl (fun s e => f e.1 e.2 s) init

/-- Modelled from the spec: the first pass of `Object.MergeWith`, over the entries of
the receiver: an entry whose key is absent from `other` is kept, an entry whose key is
in both gets the value chosen by the conflict resolver, and the pass is abandoned
(`none`) as soon as the resolver asks to stop. -/
def Object.mergeUntil (conflictResolver : Term → Term → Term × Bool) (other : Object) :
    List (Term × Term) → Object → Option Object
  | [], result => some result
  | (k, v) :: rest, result =>
    match Object.Get other k with
    | none => Object.mergeUntil conflictResolver other rest (Object.Insert result k v)
    | some v2 =>
      if (conflictResolver v v2).2 then none
      else Object.mergeUntil conflictResolver other rest
        (Object.Insert result k (conflictResolver v v2).1)

/-- Modelled from the spec: the second pass of `Object.MergeWith`, which copies the
entries of `other` whose key is absent from the receiver. -/
def Object.mergeRest (obj other : Object) (result : Object) : Object :=
  Object.Foreach other
    (fun k v r => if Object.Get obj k = none then Object.Insert r k v else r) result

/-- Modelled from the spec: `Object.MergeWith`, the union of two Objects with a
caller-supplied resolver for the keys present in both.  `none` stands for the Go
result `(nil, false)` of a merge the resolver stopped. -/
def Object.MergeWith (obj other : Object)
    (conflictResolver : Term → Term → Term × Bool) : Option Object :=
  match Object.mergeUntil conflictResolver other obj NewObject with
  | none => none
  | some result => some (Object.mergeRest obj other result)

/-- Modelled from the spec: `Object.Filter`, the projection primitive of the value
model: it returns the sub-object of the entries whose key is present in the projection
specification.  A Null in the specification keeps the entry's value whole; what any
other specification value does to the entry's value (nested projection, which may
fail with a shape error) is left to the parameter `nested`. -/
def Object.Filter (nested : Term → Term → Except String Term) :
    Object → Object → Except String Object
  | [], _ => .ok []
  | (k, v) :: rest, filter =>
    match Object.Get filter k with
    | none => Object.Filter nested rest filter
    | some .Null =>
      match Object.Filter nested rest filter with
      | .error e => .error e
      | .ok r => .ok ((k, v) :: r)
    | some f =>
      match nested v f with
      | .error e => .error e
      | .ok v' =>
        match Object.Filter nested rest filter with
        | .error e => .error e
        | .ok r => .ok ((k, v') :: r)

/-- Modelled from the spec: `ast.NewSet`, the empty Set. -/
def NewSet : Set := []

/-- Modelled from the spec: `Set.Contains`, membership under structural equality. -/
def Set.Contains (s : Set) (t : Term) : Bool := decide (t ∈ s)

/-- Modelled from the spec: `Set.Add`, which adds a member unless it is already one. -/
def Set.Add (s : Set) (t : Term) : Set := if t ∈ s then s else s ++ [t]

/-- Modelled from the spec: `Set.Foreach` / `Set.Iter` with a callback that never
fails, visiting every member once and threading the state the callback updates. -/
def Set.Foreach {σ : Type} (s : Set) (f : Term → σ → σ) (init : σ) : σ :=
  s.foldl (fun st t => f t st) init

/-- Modelled from the spec: `Array.Iter` with a callback that never fails, visiting the
elements in order. -/
def Array.Iter {σ : Type} (arr : Array) (f : Term → σ → σ) (init : σ) : σ :=
  arr.foldl (fun st t => f t st) init

/-- Modelled from the spec: `Array.Len`. -/
def Array.Len (arr : Array) : Int := (arr.length : Int)

/-- Modelled from the spec: `Array.Get`, the element at a position given as a Number
term; nothing (Go `nil`) for any other term or a position outside `0 ≤ i < Len`. -/
def Array.Get (arr : Array) (pos : Term) : Option Term :=
  match pos with
  | .Number i => if 0 ≤ i ∧ i < (arr.length : Int) then arr.get? i.toNat else none
  | _ => none

end ast

namespace types

/-- Modelled from the spec: the types of package `types` that `object.go` names when it
builds its operand type error.  `Object` and `Array` are the composite types
`types.Object{}` and `types.Array{}`; `S` is the package value `types.S`, which is the
string type (as `N` is the number type and `B` the boolean type); `Set` is the set type,
which `object.go` does not name. -/
inductive T where
  | Object
  | Array
  | Set
  | S
  deriving DecidableEq

end types

namespace ast

/-- Modelled from the spec: `ast.TypeName`, the name under which a type appears in an
operand type error. -/
def TypeName : types.T → String
  | .Object => "object"
  | .Array => "array"
  | .Set => "set"
  | .S => "string"

end ast

namespace builtins
open ast

/-- Modelled from the spec: the operand type error, carrying the 1-based operand
position, the offending value and the expected type names.  `other` stands for any
other error (of the projection primitive or of the result continuation). -/
inductive Error where
  | OperandTypeErr (pos : Nat) (got : Term) (expected : List String)
  | other (msg : String)
  deriving DecidableEq

/-- Modelled from the spec: `builtins.NewOperandTypeErr`. -/
def NewOperandTypeErr (pos : Nat) (got : Term) (expected : List String) : Error :=
  .OperandTypeErr pos got expected

/-- Modelled from the spec: `builtins.ObjectOperand`, which verifies that operand `pos`
is an Object and produces a positioned type error otherwise. -/
def ObjectOperand (x : Term) (pos : Nat) : Except Error Object :=
  match x with
  | .Object o => .ok o
  | _ => .error (NewOperandTypeErr pos x ["object"])

/-- Modelled from the spec: `builtins.ArrayOperand`, which verifies that operand `pos`
is an Array and produces a positioned type error otherwise. -/
def ArrayOperand (x : Term) (pos : Nat) : Except Error Array :=
  match x with
  | .Array a => .ok a
  | _ => .error (NewOperandTypeErr pos x ["array"])

end builtins

namespace topdown
open ast builtins

/-- Modelled from the spec: the result continuation `iter func(*ast.Term) error` the
host engine supplies.  A call receives the result term and the state of the host, and
returns the Go `error` (`none` for `nil`) together with the new state. -/
abbrev Iter (σ : Type) := Term → σ → Option Error × σ

/-- The function `getObjectKeysParam`: the set of key values of a supplied array, set or
object value; for any other value the operand type error of position 2 whose expected
types are, as the source writes them, `types.Object{}`, `types.S` and
`types.Array{}`. -/
def getObjectKeysParam (arrayOrSet : Term) : Except Error Set :=
  match arrayOrSet with
  | .Array v => .ok (Array.Iter v (fun f keys => Set.Add keys f) NewSet)
  | .Set v => .ok (Set.Foreach v (fun f keys => Set.Add keys f) NewSet)
  | .Object v => .ok (Object.Foreach v (fun k _ keys => Set.Add keys k) NewSet)
  | _ => .error (NewOperandTypeErr 2 arrayOrSet
      [TypeName types.T.Object, TypeName types.T.S, TypeName types.T.Array])

/-- The second pass of `MergeWith` applied to the outcome of the first, with the Go
`nil` of a stopped merge read as the empty Object (the resolver of
`mergeWithOverwrite` never stops, so this case does not arise). -/
def mergeFinish (objA objB : Object) (first : Option Object) : Object :=
  match first with
  | none => []
  | some result => Object.mergeRest objA objB result

mutual
/-- The conflict resolver that `mergeWithOverwrite` passes to `MergeWith`: two Objects
are merged recursively, otherwise the right-hand value is kept; it never stops the
merge. -/
def mergeWithOverwrite.resolve : Term → Term → Term × Bool
  | .Object originalValueObj, .Object updateValueObj =>
    (.Object (mergeFinish originalValueObj updateValueObj
      (mergeWithOverwrite.first updateValueObj originalValueObj NewObject)), false)
  | _, v2 => (v2, false)
/-- The first pass of `MergeWith` (see `ast.Object.mergeUntil`) with the resolver of
`mergeWithOverwrite`. -/
def mergeWithOverwrite.first (other : Object) :
    List (Term × Term) → Object → Option Object
  | [], result => some result
  | (k, v) :: rest, result =>
    match Object.Get other k with
    | none => mergeWithOverwrite.first other rest (Object.Insert result k v)
    | some v2 =>
      if (mergeWithOverwrite.resolve v v2).2 then none
      else mergeWithOverwrite.first other rest
        (Object.Insert result k (mergeWithOverwrite.resolve v v2).1)
end

/-- The function `mergeWithOverwrite`: `objA.MergeWith(objB, resolve)` with the Boolean
result dropped.  The recursion of the resolver is structural in `objA`, so it is written
out over the two passes of `MergeWith`; `mergeWithOverwrite_eq_MergeWith` states the
equation of the source. -/
def mergeWithOverwrite (objA objB : Object) : Object :=
  mergeFinish objA objB (mergeWithOverwrite.first objB objA NewObject)

/-- The value `mergeWithOverwrite` stores for an entry of `objA`: the entry's own value
when its key is absent from `objB`, the resolver's choice otherwise. -/
def mergedValue (objB : Object) (e : Term × Term) : Term :=
  match Object.Get objB e.1 with
  | none => e.2
  | some v2 => (mergeWithOverwrite.resolve e.2 v2).1

/-- The builtin `builtinObjectUnion` on operands `a`, `b`. -/
def builtinObjectUnion {σ : Type} (a b : Term) (iter : Iter σ) (s : σ) : Option Error × σ :=
  match ObjectOperand a 1 with
  | .error err => (some err, s)
  | .ok objA =>
    match ObjectOperand b 2 with
    | .error err => (some err, s)
    | .ok objB => iter (.Object (mergeWithOverwrite objA objB)) s

/-- The builtin `builtinObjectRemove` on operands `a` (an object) and `b` (an
array/set/object of keys). -/
def builtinObjectRemove {σ : Type} (a b : Term) (iter : Iter σ) (s : σ) : Option Error × σ :=
  match ObjectOperand a 1 with
  | .error err => (some err, s)
  | .ok obj =>
    match getObjectKeysParam b with
    | .error err => (some err, s)
    | .ok keysToRemove =>
      iter (.Object (Object.Foreach obj
        (fun key value r => if !Set.Contains keysToRemove key then Object.Insert r key value else r)
        NewObject)) s

/-- The builtin `builtinObjectFilter` on operands `a` (an object) and `b` (an
array/set/object of keys); `nested` is the nested projection of `ast.Object.Filter`. -/
def builtinObjectFilter {σ : Type} (nested : Term → Term → Except String Term)
    (a b : Term) (iter : Iter σ) (s : σ) : Option Error × σ :=
  match ObjectOperand a 1 with
  | .error err => (some err, s)
  | .ok obj =>
    match getObjectKeysParam b with
    | .error err => (some err, s)
    | .ok keys =>
      match Object.Filter nested obj
          (Set.Foreach keys (fun key filterObj => Object.Insert filterObj key NullTerm)
            NewObject) with
      | .error err => (some (.other err), s)
      | .ok r => iter (.Object r) s

/-- The builtin `builtinObjectGet` on operands `a` (an object), `key` and `dflt`. -/
def builtinObjectGet {σ : Type} (a key dflt : Term) (iter : Iter σ) (s : σ) :
    Option Error × σ :=
  match ObjectOperand a 1 with
  | .error err => (some err, s)
  | .ok object =>
    match Object.Get object key with
    | some ret => iter ret s
    | none => iter dflt s

/-- Go `strings.Split(s, ".")` on the characters of `s`: the pieces between the
occurrences of the separator, one more than there are separators. -/
def splitDot : List Char → List (List Char)
  | [] => [[]]
  | c :: cs =>
    if c = '.' then [] :: splitDot cs
    else
      match splitDot cs with
      | [] => [[c]]
      | p :: ps => (c :: p) :: ps

/-- The path segments of `builtinObjectLookup`: `strings.Split(path, ".")`. -/
def parts (path : String) : List String := (splitDot path.data).map String.mk

/-- Modelled from the spec: the helper `toIndex`, which `object.go` calls but does not
define: it parses the segment as a non-negative integer index, and fails when the
segment is not a decimal numeral. -/
def toIndex (_original : Array) (aPart : Term) : Except String Int :=
  match aPart with
  | .String s =>
    if s.data ≠ [] ∧ s.data.all Char.isDigit then
      .ok ((s.data.foldl (fun n c => 10 * n + (c.toNat - 48)) 0 : Nat) : Int)
    else .error "invalid string for indexing"
  | _ => .error "invalid type for indexing"

/-- One iteration of the loop of `builtinObjectLookup` on a non-nil current term: the
switch on the type of its value.  The result `none` is the Go `nil`. -/
def lookupStep (toIdx : Array → Term → Except String Int) (object : Term) (part : String) :
    Option Term :=
  match object with
  | .Object o => Object.Get o (StringTerm part)
  | .Array original =>
    match toIdx original (StringTerm part) with
    | .error _ => none
    | .ok idx =>
      if idx < 0 ∨ idx > Array.Len original then none
      else
        match ArrayOperand (.Array original) 1 with
        | .error _ => none
        | .ok a => Array.Get a (IntNumberTerm idx)
  | _ => none

/-- The loop `for _, part := range parts` of `builtinObjectLookup`, which stops at the
first segment that finds the current term nil. -/
def lookupLoop (toIdx : Array → Term → Except String Int) :
    Option Term → List String → Option Term
  | object, [] => object
  | none, _ :: _ => none
  | some object, part :: rest => lookupLoop toIdx (lookupStep toIdx object part) rest

/-- The builtin `builtinObjectLookup` on operands `root`, the path string and `dflt`;
`toIdx` is the helper `toIndex`. -/
def builtinObjectLookup {σ : Type} (toIdx : Array → Term → Except String Int)
    (root : Term) (path : String) (dflt : Term) (iter : Iter σ) (s : σ) :
    Option Error × σ :=
  match lookupLoop toIdx (some root) (parts path) with
  | none => iter dflt s
  | some object => iter object s

/-- A result continuation that records the terms it is given and never fails. -/
def record : Iter (List Term) := fun t log => (none, log ++ [t])

/-- The predicate "an Array, a Set or an Object": the shapes of a valid keys argument. -/
def isKeysShape : Term → Bool
  | .Array _ => true
  | .Set _ => true
  | .Object _ => true
  | _ => false

/-- The predicate "an Object". -/
def isObject : Term → Bool
  | .Object _ => true
  | _ => false

/-- The nested projection that leaves every value whole; used where a concrete
projection primitive is needed. -/
def keepWhole : Term → Term → Except String Term := fun v _ => .ok v

/-- Sample Object: the JSON object with "a" mapped to 1 and "b" mapped to 2. -/
def sampleAB : Object := [(StringTerm "a", IntNumberTerm 1), (StringTerm "b", IntNumberTerm 2)]

/-- Sample Object: the JSON object with "a" mapped to the object with "x" mapped to 1. -/
def sampleAX : Object := [(StringTerm "a", .Object [(StringTerm "x", IntNumberTerm 1)])]

/-- Sample Object: the JSON object with "a" mapped to the object with "y" mapped to 2. -/
def sampleAY : Object := [(StringTerm "a", .Object [(StringTerm "y", IntNumberTerm 2)])]

/-- Sample Object: the JSON object with "a" mapped to the object with "b" mapped to the
string "x". -/
def sampleNested : Object := [(StringTerm "a", .Object [(StringTerm "b", StringTerm "x")])]

end topdown

namespace ast

mutual
/-- The invariant of the data model, "an Object never contains duplicate keys", along
the values of a term: an Object has unique keys, and so has every Object reached from it
through Object values. -/
def Term.keysUnique : Term → Bool
  | .Object kvs => decide ((kvs.map Prod.fst).Nodup) && Term.keysUniqueEntries kvs
  | _ => true
/-- The invariant `Term.keysUnique` for the values of a list of entries. -/
def Term.keysUniqueEntries : List (Term × Term) → Bool
  | [] => true
  | (_, v) :: rest => Term.keysUnique v && Term.keysUniqueEntries rest
end

/-- Modelled from the spec: equality of two Objects as mappings.  An Object has no
order of entries, so two Objects are equal when they have the same entries, in whatever
order they are listed. -/
def Object.Equal (a b : Object) : Prop := List.Perm a b

instance (a b : Object) : Decidable (Object.Equal a b) :=
  inferInstanceAs (Decidable (List.Perm a b))

end ast

namespace topdown
open ast builtins

/-- The predicate "an Array". -/
def isArray : Term → Bool
  | .Array _ => true
  | _ => false

/-- Sample Object: the JSON object with "k" mapped to the object with "x" mapped to 1. -/
def sampleKX : Object := [(StringTerm "k", .Object [(StringTerm "x", IntNumberTerm 1)])]

/-- Sample Object: the JSON object with "k" mapped to the number 1. -/
def sampleK1 : Object := [(StringTerm "k", IntNumberTerm 1)]

/-- Sample Object: the JSON object with "k" mapped to the object with "y" mapped to 2. -/
def sampleKY : Object := [(StringTerm "k", .Object [(StringTerm "y", IntNumberTerm 2)])]

/-- Sample Object: the JSON object with "a" mapped to the array holding the object with
"b" mapped to the array holding the string "x". -/
def sampleIndexed : Object :=
  [(StringTerm "a", .Array [.Object [(StringTerm "b", .Array [StringTerm "x"])]])]

/-- Sample Object: the JSON object with "a" mapped to null. -/
def sampleNull : Object := [(StringTerm "a", NullTerm)]

end topdown

namespace ast

theorem Object.Get_eq_none_iff (obj : Object) (k : Term) :
    Object.Get obj k = none ↔ k ∉ Object.Keys obj := by
  induction obj with
  | nil => simp [Object.Get, Object.Keys]
  | cons e rest ih =>
    obtain ⟨k', v⟩ := e
    by_cases h : k' = k
    · simp [Object.Get, Object.Keys, h]
    · have h' : ¬ k = k' := fun e => h e.symm
      simp only [Object.Keys] at ih
      simp [Object.Get, Object.Keys, h, h', ih]

theorem Object.Get_of_mem (obj : Object) (hnd : (Object.Keys obj).Nodup) (k v : Term)
    (hm : (k, v) ∈ obj) : Object.Get obj k = some v := by
  induction obj with
  | nil => simp at hm
  | cons e rest ih =>
    obtain ⟨k', v'⟩ := e
    simp only [Object.Keys, List.map_cons, List.nodup_cons, List.mem_map, not_exists,
      not_and] at hnd
    rcases List.mem_cons.mp hm with h | h
    · cases h
      simp [Object.Get]
    · have hne : ¬ k' = k := by
        intro e
        exact hnd.1 (k, v) h e.symm
      simp only [Object.Get, hne, if_false]
      exact ih hnd.2 h

theorem Object.mem_of_Get (obj : Object) (k v : Term) (h : Object.Get obj k = some v) :
    (k, v) ∈ obj := by
  induction obj with
  | nil => simp [Object.Get] at h
  | cons e rest ih =>
    obtain ⟨k', v'⟩ := e
    by_cases hk : k' = k
    · simp [Object.Get, hk] at h
      simp [hk, h]
    · simp only [Object.Get, hk, if_false] at h
      exact List.mem_cons_of_mem _ (ih h)

theorem Object.Insert_of_not_mem (r : Object) (k v : Term) (h : k ∉ Object.Keys r) :
    Object.Insert r k v = r ++ [(k, v)] := by
  induction r with
  | nil => simp [Object.Insert]
  | cons e rest ih =>
    obtain ⟨k', v'⟩ := e
    simp only [Object.Keys, List.map_cons, List.mem_cons, not_or] at h
    have hne : ¬ k' = k := fun e => h.1 e.symm
    simp only [Object.Insert, hne, if_false, List.cons_append]
    rw [ih h.2]

theorem Object.Get_append (a b : Object) (k : Term) :
    Object.Get (a ++ b) k = (Object.Get a k).orElse (fun _ => Object.Get b k) := by
  induction a with
  | nil => simp [Object.Get]
  | cons e rest ih =>
    obtain ⟨k', v'⟩ := e
    by_cases hk : k' = k
    · simp [Object.Get, hk]
    · simp [Object.Get, hk, ih]

theorem Object.Get_map (a : Object) (g : Term × Term → Term) (k : Term) :
    Object.Get (a.map (fun e => (e.1, g e))) k = (Object.Get a k).map (fun v => g (k, v)) := by
  induction a with
  | nil => simp [Object.Get]
  | cons e rest ih =>
    obtain ⟨k', v'⟩ := e
    by_cases hk : k' = k
    · simp [Object.Get, hk]
    · simp [Object.Get, hk, ih]

theorem Object.Get_filter (a : Object) (p : Term → Bool) (k : Term) :
    Object.Get (a.filter (fun e => p e.1)) k = if p k then Object.Get a k else none := by
  induction a with
  | nil => simp [Object.Get]
  | cons e rest ih =>
    obtain ⟨k', v'⟩ := e
    by_cases hp : p k' = true
    · by_cases hk : k' = k
      · subst hk
        simp [Object.Get, List.filter_cons, hp]
      · simp [Object.Get, List.filter_cons, hp, hk, ih]
    · by_cases hk : k' = k
      · subst hk
        simp [Object.Get, List.filter_cons, hp, ih]
      · simp [Object.Get, List.filter_cons, hp, hk, ih]

/-- Closed form of a loop that inserts, under fresh keys, the selected entries of an
Object with unique keys. -/
theorem Object.foldl_Insert_eq (p : Term × Term → Bool) (g : Term × Term → Term)
    (a : Object) (hnd : (Object.Keys a).Nodup) (acc : Object)
    (hfresh : ∀ e ∈ a, p e = true → e.1 ∉ Object.Keys acc) :
    a.foldl (fun r e => if p e then Object.Insert r e.1 (g e) else r) acc
      = acc ++ (a.filter p).map (fun e => (e.1, g e)) := by
  induction a generalizing acc with
  | nil => simp
  | cons e rest ih =>
    simp only [Object.Keys, List.map_cons, List.nodup_cons] at hnd
    have hrest : ∀ x ∈ rest, x.1 ≠ e.1 := by
      intro x hx heq
      exact hnd.1 (heq ▸ List.mem_map_of_mem Prod.fst hx)
    by_cases hp : p e = true
    · simp only [List.foldl_cons, hp, if_true, List.filter_cons, List.map_cons]
      rw [Object.Insert_of_not_mem acc e.1 (g e) (hfresh e (List.mem_cons_self _ _) hp)]
      rw [ih hnd.2]
      · simp
      · intro x hx hpx
        have h1 := hfresh x (List.mem_cons_of_mem _ hx) hpx
        simp only [Object.Keys, List.map_append, List.map_cons, List.map_nil, List.mem_append,
          List.mem_singleton, not_or]
        exact ⟨h1, hrest x hx⟩
    · simp only [List.foldl_cons, hp, List.filter_cons]
      rw [ih hnd.2]
      · simp
      · intro x hx hpx
        exact hfresh x (List.mem_cons_of_mem _ hx) hpx

end ast

namespace ast

theorem Object.Get_Insert (r : Object) (k v k' : Term) :
    Object.Get (Object.Insert r k v) k' = if k = k' then some v else Object.Get r k' := by
  induction r with
  | nil => simp [Object.Insert, Object.Get]
  | cons e rest ih =>
    obtain ⟨k0, v0⟩ := e
    by_cases h0 : k0 = k
    · subst h0
      by_cases h1 : k0 = k'
      · simp [Object.Insert, Object.Get, h1]
      · simp [Object.Insert, Object.Get, h1]
    · by_cases h1 : k0 = k'
      · subst h1
        have h2 : ¬ k = k0 := fun e => h0 e.symm
        simp [Object.Insert, Object.Get, h0, h2]
      · simp [Object.Insert, Object.Get, h0, h1, ih]

theorem Set.mem_Add (s : Set) (t x : Term) : x ∈ Set.Add s t ↔ x ∈ s ∨ x = t := by
  unfold Set.Add
  by_cases h : t ∈ s
  · simp only [h, if_true]
    constructor
    · intro hx
      exact Or.inl hx
    · rintro (hx | hx)
      · exact hx
      · exact hx ▸ h
  · simp [h]

theorem Set.mem_foldl_Add (xs : List Term) (acc : Set) (x : Term) :
    x ∈ xs.foldl (fun keys f => Set.Add keys f) acc ↔ x ∈ acc ∨ x ∈ xs := by
  induction xs generalizing acc with
  | nil => simp
  | cons t rest ih =>
    simp only [List.foldl_cons, ih, Set.mem_Add, List.mem_cons]
    tauto

theorem Set.mem_foldl_Add_fst (o : Object) (acc : Set) (x : Term) :
    x ∈ o.foldl (fun keys e => Set.Add keys e.1) acc ↔ x ∈ acc ∨ x ∈ Object.Keys o := by
  induction o generalizing acc with
  | nil => simp [Object.Keys]
  | cons e rest ih =>
    simp only [List.foldl_cons, ih, Set.mem_Add, Object.Keys, List.map_cons, List.mem_cons]
    tauto

theorem Object.Get_foldl_Insert_Null (ks : List Term) (acc : Object) (k : Term) :
    Object.Get (ks.foldl (fun filterObj key => Object.Insert filterObj key NullTerm) acc) k
      = if k ∈ ks then some Term.Null else Object.Get acc k := by
  induction ks generalizing acc with
  | nil => simp
  | cons t rest ih =>
    simp only [List.foldl_cons, ih, Object.Get_Insert, List.mem_cons]
    by_cases h1 : k ∈ rest
    · simp [h1]
    · by_cases h2 : t = k
      · simp [h1, h2, NullTerm]
      · have h3 : ¬ k = t := fun e => h2 e.symm
        simp [h1, h2, h3]

/-- With a projection specification whose values are all Null, `Filter` keeps exactly
the entries whose key the specification has, values unchanged, and does not fail. -/
theorem Object.Filter_flat (nested : Term → Term → Except String Term) (obj filter : Object)
    (hflat : ∀ k f, Object.Get filter k = some f → f = Term.Null) :
    Object.Filter nested obj filter
      = .ok (obj.filter (fun e => (Object.Get filter e.1).isSome)) := by
  induction obj with
  | nil => simp [Object.Filter]
  | cons e rest ih =>
    obtain ⟨k, v⟩ := e
    cases hg : Object.Get filter k with
    | none => simp [Object.Filter, hg, ih]
    | some f =>
      have hf := hflat k f hg
      subst hf
      simp [Object.Filter, hg, ih]

end ast

namespace topdown
open ast builtins

theorem getObjectKeysParam_Array (xs : List Term) :
    ∃ ks, getObjectKeysParam (.Array xs) = .ok ks ∧ ∀ t, t ∈ ks ↔ t ∈ xs := by
  refine ⟨_, rfl, ?_⟩
  intro t
  simp [Array.Iter, Set.mem_foldl_Add, NewSet]

theorem getObjectKeysParam_Set (xs : List Term) :
    ∃ ks, getObjectKeysParam (.Set xs) = .ok ks ∧ ∀ t, t ∈ ks ↔ t ∈ xs := by
  refine ⟨_, rfl, ?_⟩
  intro t
  simp [Set.Foreach, Set.mem_foldl_Add, NewSet]

theorem getObjectKeysParam_Object (o : Object) :
    ∃ ks, getObjectKeysParam (.Object o) = .ok ks ∧ ∀ t, t ∈ ks ↔ t ∈ Object.Keys o := by
  refine ⟨_, rfl, ?_⟩
  intro t
  simp [Object.Foreach, Set.mem_foldl_Add_fst, NewSet]

/-- The Object `builtinObjectRemove` builds: the entries of `obj` whose key is not in
the key set, in order. -/
theorem remove_loop_eq (obj : Object) (hnd : (Object.Keys obj).Nodup) (ks : Set) :
    Object.Foreach obj
      (fun key value r => if !Set.Contains ks key then Object.Insert r key value else r)
      NewObject
      = obj.filter (fun e => decide (e.1 ∉ ks)) := by
  have h := Object.foldl_Insert_eq (fun e => !Set.Contains ks e.1) (fun e => e.2) obj hnd
    NewObject (by simp [NewObject, Object.Keys])
  simp only [Object.Foreach]
  rw [h]
  simp [NewObject, Set.Contains]

/-- The Object `builtinObjectFilter` obtains from the projection primitive: the entries
of `obj` whose key is in the key set, in order. -/
theorem filter_call_eq (nested : Term → Term → Except String Term) (obj : Object) (ks : Set) :
    Object.Filter nested obj
      (Set.Foreach ks (fun key filterObj => Object.Insert filterObj key NullTerm) NewObject)
      = .ok (obj.filter (fun e => decide (e.1 ∈ ks))) := by
  rw [Object.Filter_flat]
  · congr 1
    apply List.filter_congr
    intro e _
    simp only [Set.Foreach, Object.Get_foldl_Insert_Null]
    by_cases h : e.1 ∈ ks <;> simp [h, NewObject, Object.Get]
  · intro k f hk
    simp only [Set.Foreach, Object.Get_foldl_Insert_Null] at hk
    by_cases h : k ∈ ks
    · simp [h] at hk
      exact hk.symm
    · simp [h, NewObject, Object.Get] at hk

theorem lookupLoop_none (toIdx : Array → Term → Except String Int) (l : List String) :
    lookupLoop toIdx none l = none := by
  cases l <;> simp [lookupLoop]

theorem lookupLoop_append (toIdx : Array → Term → Except String Int) (x : Option Term)
    (p q : List String) :
    lookupLoop toIdx x (p ++ q) = lookupLoop toIdx (lookupLoop toIdx x p) q := by
  induction p generalizing x with
  | nil => simp [lookupLoop]
  | cons part rest ih =>
    cases x with
    | none => simp [lookupLoop, lookupLoop_none]
    | some t => simp [lookupLoop, ih]

end topdown

namespace topdown
open ast builtins

theorem resolve_snd (v1 v2 : Term) : (mergeWithOverwrite.resolve v1 v2).2 = false := by
  cases v1 <;> cases v2 <;> simp [mergeWithOverwrite.resolve]

theorem resolve_Object (o1 o2 : Object) :
    mergeWithOverwrite.resolve (.Object o1) (.Object o2)
      = (.Object (mergeWithOverwrite o1 o2), false) := by
  simp [mergeWithOverwrite.resolve, mergeWithOverwrite]

theorem resolve_not_both (v1 v2 : Term)
    (h : ∀ o1 o2, ¬ (v1 = .Object o1 ∧ v2 = .Object o2)) :
    mergeWithOverwrite.resolve v1 v2 = (v2, false) := by
  cases v1 <;> cases v2 <;> simp [mergeWithOverwrite.resolve] at h ⊢

theorem first_eq_mergeUntil (other : Object) (rest : List (Term × Term)) (result : Object) :
    mergeWithOverwrite.first other rest result
      = Object.mergeUntil mergeWithOverwrite.resolve other rest result := by
  induction rest generalizing result with
  | nil => simp [mergeWithOverwrite.first, Object.mergeUntil]
  | cons e rest ih =>
    obtain ⟨k, v⟩ := e
    simp only [mergeWithOverwrite.first, Object.mergeUntil]
    cases Object.Get other k with
    | none => simp [ih]
    | some v2 => simp [ih]

/-- The equation of the source: `mergeWithOverwrite` is `MergeWith` with the resolver
that merges two Objects recursively and otherwise keeps the right-hand value. -/
theorem mergeWithOverwrite_eq_MergeWith (objA objB : Object) :
    mergeWithOverwrite objA objB
      = (Object.MergeWith objA objB (fun v1 v2 =>
          match v1, v2 with
          | .Object originalValueObj, .Object updateValueObj =>
            (.Object (mergeWithOverwrite originalValueObj updateValueObj), false)
          | _, _ => (v2, false))).getD [] := by
  have hf : (fun v1 v2 =>
          match v1, v2 with
          | Term.Object originalValueObj, Term.Object updateValueObj =>
            (Term.Object (mergeWithOverwrite originalValueObj updateValueObj), false)
          | _, _ => (v2, false)) = mergeWithOverwrite.resolve := by
    funext v1 v2
    cases v1 <;> cases v2 <;> simp [mergeWithOverwrite.resolve, mergeWithOverwrite]
  rw [hf]
  simp only [mergeWithOverwrite, Object.MergeWith, first_eq_mergeUntil]
  cases Object.mergeUntil mergeWithOverwrite.resolve objB objA NewObject <;>
    simp [mergeFinish]

theorem first_closed (other : Object) (rest : List (Term × Term))
    (hnd : (Object.Keys rest).Nodup) (result : Object)
    (hfresh : ∀ e ∈ rest, e.1 ∉ Object.Keys result) :
    mergeWithOverwrite.first other rest result
      = some (result ++ rest.map (fun e => (e.1, mergedValue other e))) := by
  induction rest generalizing result with
  | nil => simp [mergeWithOverwrite.first]
  | cons e rest ih =>
    obtain ⟨k, v⟩ := e
    simp only [Object.Keys, List.map_cons, List.nodup_cons] at hnd
    have hk : k ∉ Object.Keys result := hfresh (k, v) (List.mem_cons_self _ _)
    have hstep : ∀ w : Term, ∀ x ∈ rest, x.1 ∉ Object.Keys (result ++ [(k, w)]) := by
      intro w x hx
      have h1 := hfresh x (List.mem_cons_of_mem _ hx)
      have h2 : x.1 ≠ k := by
        intro heq
        exact hnd.1 (heq ▸ List.mem_map_of_mem Prod.fst hx)
      simp only [Object.Keys, List.map_append, List.map_cons, List.map_nil, List.mem_append,
        List.mem_singleton, not_or]
      exact ⟨h1, h2⟩
    simp only [mergeWithOverwrite.first, resolve_snd]
    cases hg : Object.Get other k with
    | none =>
      simp only [Object.Insert_of_not_mem result k _ hk]
      rw [ih hnd.2 _ (hstep v)]
      simp [mergedValue, hg]
    | some v2 =>
      simp only [Object.Insert_of_not_mem result k _ hk]
      rw [ih hnd.2 _ (hstep _)]
      simp [mergedValue, hg]

/-- Closed form of `mergeWithOverwrite` on Objects with unique keys: the entries of
`objA` in order, each with its merged value, then the entries of `objB` whose key is
absent from `objA`. -/
theorem mergeWithOverwrite_closed (objA objB : Object)
    (hA : (Object.Keys objA).Nodup) (hB : (Object.Keys objB).Nodup) :
    mergeWithOverwrite objA objB
      = objA.map (fun e => (e.1, mergedValue objB e))
        ++ objB.filter (fun e => decide (Object.Get objA e.1 = none)) := by
  unfold mergeWithOverwrite
  rw [first_closed objB objA hA NewObject (by simp [NewObject, Object.Keys])]
  simp only [mergeFinish, Object.mergeRest, Object.Foreach, NewObject, List.nil_append]
  have h := Object.foldl_Insert_eq (fun e => decide (Object.Get objA e.1 = none))
    (fun e => e.2) objB hB (objA.map (fun e => (e.1, mergedValue objB e)))
    (by
      intro e _ hp
      simp only [decide_eq_true_eq] at hp
      rw [Object.Get_eq_none_iff] at hp
      simpa [Object.Keys] using hp)
  simp only [decide_eq_true_eq] at h
  rw [h]
  simp

end topdown

namespace topdown
open ast builtins

/-- The value `mergeWithOverwrite` stores under each key, on Objects with unique keys. -/
theorem Get_mergeWithOverwrite (a b : Object)
    (hA : (Object.Keys a).Nodup) (hB : (Object.Keys b).Nodup) (k : Term) :
    Object.Get (mergeWithOverwrite a b) k =
      match Object.Get a k, Object.Get b k with
      | some v1, some v2 => some (mergeWithOverwrite.resolve v1 v2).1
      | some v1, none => some v1
      | none, r => r := by
  rw [mergeWithOverwrite_closed a b hA hB, Object.Get_append, Object.Get_map,
    Object.Get_filter b (fun k => decide (Object.Get a k = none)) k]
  cases hga : Object.Get a k with
  | none => simp
  | some v1 =>
    cases hgb : Object.Get b k with
    | none => simp [mergedValue, hgb]
    | some v2 => simp [mergedValue, hgb]

theorem Keys_mergeWithOverwrite (a b : Object)
    (hA : (Object.Keys a).Nodup) (hB : (Object.Keys b).Nodup) :
    Object.Keys (mergeWithOverwrite a b)
      = Object.Keys a ++ (Object.Keys b).filter (fun k => decide (k ∉ Object.Keys a)) := by
  rw [mergeWithOverwrite_closed a b hA hB]
  simp only [Object.Keys, List.map_append, List.map_map]
  congr 1
  rw [List.filter_map]
  congr 1
  apply List.filter_congr
  intro e _
  by_cases h : e.1 ∈ List.map Prod.fst a
  · have h2 : ¬ Object.Get a e.1 = none := by
      rw [Object.Get_eq_none_iff]
      simpa [Object.Keys] using h
    simp [h, h2]
  · have h2 : Object.Get a e.1 = none := by
      rw [Object.Get_eq_none_iff]
      simpa [Object.Keys] using h
    simp [h, h2]

theorem Nodup_Keys_mergeWithOverwrite (a b : Object)
    (hA : (Object.Keys a).Nodup) (hB : (Object.Keys b).Nodup) :
    (Object.Keys (mergeWithOverwrite a b)).Nodup := by
  rw [Keys_mergeWithOverwrite a b hA hB]
  refine List.Nodup.append hA (hB.filter _) ?_
  intro k hk1 hk2
  simp only [List.mem_filter, decide_eq_true_eq] at hk2
  exact hk2.2 hk1

end topdown

namespace topdown
open ast builtins

/-- C1: for Objects `a` and `b` (keys unique), the key set of `mergeWithOverwrite a b`
is exactly the union of the key sets of `a` and `b`, the merged Object again has unique
keys, a key present only in `a` keeps the value of `a`, a key present only in `b` gets
the value of `b`, and `builtinObjectUnion` delivers this merged Object. -/
theorem C1_merge_key_union (a b : Object)
    (hA : (Object.Keys a).Nodup) (hB : (Object.Keys b).Nodup) :
    (∀ k, k ∈ Object.Keys (mergeWithOverwrite a b) ↔ k ∈ Object.Keys a ∨ k ∈ Object.Keys b)
    ∧ (Object.Keys (mergeWithOverwrite a b)).Nodup
    ∧ (∀ k v, Object.Get a k = some v → Object.Get b k = none →
        Object.Get (mergeWithOverwrite a b) k = some v)
    ∧ (∀ k v, Object.Get a k = none → Object.Get b k = some v →
        Object.Get (mergeWithOverwrite a b) k = some v)
    ∧ (∀ (σ : Type) (iter : Iter σ) (s : σ),
        builtinObjectUnion (.Object a) (.Object b) iter s
          = iter (.Object (mergeWithOverwrite a b)) s) := by
  refine ⟨?_, Nodup_Keys_mergeWithOverwrite a b hA hB, ?_, ?_, ?_⟩
  · intro k
    rw [Keys_mergeWithOverwrite a b hA hB]
    simp only [List.mem_append, List.mem_filter, decide_eq_true_eq]
    tauto
  · intro k v h1 h2
    rw [Get_mergeWithOverwrite a b hA hB, h1, h2]
  · intro k v h1 h2
    rw [Get_mergeWithOverwrite a b hA hB, h1, h2]
  · intro σ iter s
    rfl

/-- Witness of C1 on the Objects with "a" mapped to 1, "b" to 2 and with "b" mapped to
3, "c" to 4: "a" keeps the left value and "c" gets the right one. -/
theorem C1_merge_key_union_witness :
    (Object.Keys sampleAB).Nodup
    ∧ (Object.Keys [(StringTerm "b", IntNumberTerm 3), (StringTerm "c", IntNumberTerm 4)]).Nodup
    ∧ Object.Get (mergeWithOverwrite sampleAB
        [(StringTerm "b", IntNumberTerm 3), (StringTerm "c", IntNumberTerm 4)]) (StringTerm "a")
        = some (IntNumberTerm 1)
    ∧ Object.Get (mergeWithOverwrite sampleAB
        [(StringTerm "b", IntNumberTerm 3), (StringTerm "c", IntNumberTerm 4)]) (StringTerm "c")
        = some (IntNumberTerm 4) :=
  ⟨by decide, by decide,
    (C1_merge_key_union sampleAB _ (by decide) (by decide)).2.2.1 (StringTerm "a")
      (IntNumberTerm 1) (by decide) (by decide),
    (C1_merge_key_union sampleAB
      [(StringTerm "b", IntNumberTerm 3), (StringTerm "c", IntNumberTerm 4)]
      (by decide) (by decide)).2.2.2.1 (StringTerm "c") (IntNumberTerm 4)
      (by decide) (by decide)⟩

/-- C2: for Objects `a` and `b` (keys unique) and a key present in both with
Object values `o1` and `o2`, the merged value is the Object `mergeWithOverwrite o1 o2`
(the same function, so the rule applies again at every depth); and merging the object
with "a" mapped to (x: 1) with the one with "a" mapped to (y: 2) gives "a" mapped to
(x: 1, y: 2). -/
theorem C2_merge_nested_objects (a b : Object)
    (hA : (Object.Keys a).Nodup) (hB : (Object.Keys b).Nodup) (k : Term) (o1 o2 : Object)
    (h1 : Object.Get a k = some (.Object o1)) (h2 : Object.Get b k = some (.Object o2)) :
    Object.Get (mergeWithOverwrite a b) k = some (.Object (mergeWithOverwrite o1 o2))
    ∧ mergeWithOverwrite sampleAX sampleAY
        = [(StringTerm "a",
            .Object [(StringTerm "x", IntNumberTerm 1), (StringTerm "y", IntNumberTerm 2)])] := by
  constructor
  · rw [Get_mergeWithOverwrite a b hA hB, h1, h2]
    simp [resolve_Object]
  · decide

/-- Witness of C2 on the two sample Objects of the claim, at the key "a". -/
theorem C2_merge_nested_objects_witness :
    (Object.Keys sampleAX).Nodup ∧ (Object.Keys sampleAY).Nodup
    ∧ Object.Get sampleAX (StringTerm "a") = some (.Object [(StringTerm "x", IntNumberTerm 1)])
    ∧ Object.Get sampleAY (StringTerm "a") = some (.Object [(StringTerm "y", IntNumberTerm 2)])
    ∧ Object.Get (mergeWithOverwrite sampleAX sampleAY) (StringTerm "a")
        = some (.Object (mergeWithOverwrite [(StringTerm "x", IntNumberTerm 1)]
            [(StringTerm "y", IntNumberTerm 2)])) :=
  ⟨by decide, by decide, by decide, by decide,
    (C2_merge_nested_objects sampleAX sampleAY (by decide) (by decide) (StringTerm "a")
      [(StringTerm "x", IntNumberTerm 1)] [(StringTerm "y", IntNumberTerm 2)]
      (by decide) (by decide)).1⟩

/-- C3: for Objects `a` and `b` (keys unique) and a key present in both whose two
values are not both Objects, the merged value is exactly the value of `b`. -/
theorem C3_merge_right_wins (a b : Object)
    (hA : (Object.Keys a).Nodup) (hB : (Object.Keys b).Nodup) (k v1 v2 : Term)
    (h1 : Object.Get a k = some v1) (h2 : Object.Get b k = some v2)
    (hn : isObject v1 = false ∨ isObject v2 = false) :
    Object.Get (mergeWithOverwrite a b) k = some v2 := by
  rw [Get_mergeWithOverwrite a b hA hB, h1, h2]
  have h : mergeWithOverwrite.resolve v1 v2 = (v2, false) := by
    apply resolve_not_both
    rintro o1 o2 ⟨e1, e2⟩
    subst e1 e2
    simp [isObject] at hn
  simp [h]

/-- Witness of C3: an Object on the left and an Array on the right under the same key;
the Array wins whole. -/
theorem C3_merge_right_wins_witness :
    (Object.Keys sampleAX).Nodup
    ∧ (Object.Keys [(StringTerm "a", Term.Array [IntNumberTerm 7])]).Nodup
    ∧ (isObject (.Object [(StringTerm "x", IntNumberTerm 1)]) = false
        ∨ isObject (.Array [IntNumberTerm 7]) = false)
    ∧ Object.Get (mergeWithOverwrite sampleAX [(StringTerm "a", Term.Array [IntNumberTerm 7])])
        (StringTerm "a") = some (.Array [IntNumberTerm 7]) :=
  ⟨by decide, by decide, by decide,
    C3_merge_right_wins sampleAX [(StringTerm "a", Term.Array [IntNumberTerm 7])]
      (by decide) (by decide) (StringTerm "a") (.Object [(StringTerm "x", IntNumberTerm 1)])
      (.Array [IntNumberTerm 7]) (by decide) (by decide) (by decide)⟩

end topdown

namespace topdown
open ast builtins

/-- C4 as stated fails: on a keys argument that is not an Array, Set or Object (here the
String "a") `builtinObjectRemove` delivers no Object at all; it returns an error and the
continuation is never called (the log of delivered terms stays empty). -/
theorem C4_remove_counterexample :
    (∃ err : Error,
        builtinObjectRemove (.Object sampleAB) (StringTerm "a") record [] = (some err, []))
    ∧ ¬ ∃ r : Object,
        builtinObjectRemove (.Object sampleAB) (StringTerm "a") record []
          = record (.Object r) [] := by
  have h : ∃ err : Error,
      builtinObjectRemove (.Object sampleAB) (StringTerm "a") record [] = (some err, []) :=
    ⟨_, rfl⟩
  refine ⟨h, ?_⟩
  rintro ⟨r, hr⟩
  obtain ⟨err, herr⟩ := h
  rw [herr] at hr
  simp [record] at hr

/-- C4, amended: for every Object `obj` (keys unique) and every keys argument on which
`getObjectKeysParam` succeeds with key set `ks`, `builtinObjectRemove` calls the
continuation once, on the Object made of exactly the entries of `obj` whose key is not
a member of `ks`, values unchanged; and removing the keys of the array ("a") from the
object (a: 1, b: 2) gives (b: 2). -/
theorem C4_remove_valid_keys (obj : Object) (hnd : (Object.Keys obj).Nodup)
    (keys : Term) (ks : Set) (hk : getObjectKeysParam keys = .ok ks) :
    (∀ (σ : Type) (iter : Iter σ) (s : σ),
        builtinObjectRemove (.Object obj) keys iter s
          = iter (.Object (obj.filter (fun e => decide (e.1 ∉ ks)))) s)
    ∧ builtinObjectRemove (.Object sampleAB) (.Array [StringTerm "a"]) record []
        = (none, [.Object [(StringTerm "b", IntNumberTerm 2)]]) := by
  constructor
  · intro σ iter s
    simp only [builtinObjectRemove, ObjectOperand, hk, remove_loop_eq obj hnd ks]
  · decide

/-- Witness of the amended C4 on the object (a: 1, b: 2) and the keys array ("a"). -/
theorem C4_remove_valid_keys_witness :
    (Object.Keys sampleAB).Nodup
    ∧ getObjectKeysParam (.Array [StringTerm "a"]) = .ok [StringTerm "a"]
    ∧ builtinObjectRemove (.Object sampleAB) (.Array [StringTerm "a"]) record []
        = record (.Object (sampleAB.filter (fun e => decide (e.1 ∉ [StringTerm "a"])))) [] :=
  ⟨by decide, rfl,
    (C4_remove_valid_keys sampleAB (by decide) (.Array [StringTerm "a"]) [StringTerm "a"]
      rfl).1 (List Term) record []⟩

/-- C5: for every Object `obj` and every keys argument on which `getObjectKeysParam`
succeeds with key set `ks` (an Array, Set or Object), `builtinObjectFilter` calls the
continuation once, on the Object made of exactly the entries of `obj` whose key is a
member of `ks`, values unchanged, whatever the nested projection of the projection
primitive does; and filtering the object (a: 1, b: 2) by the array ("a") gives
(a: 1). -/
theorem C5_filter_valid_keys (nested : Term → Term → Except String Term) (obj : Object)
    (keys : Term) (ks : Set) (hk : getObjectKeysParam keys = .ok ks) :
    (∀ (σ : Type) (iter : Iter σ) (s : σ),
        builtinObjectFilter nested (.Object obj) keys iter s
          = iter (.Object (obj.filter (fun e => decide (e.1 ∈ ks)))) s)
    ∧ builtinObjectFilter nested (.Object sampleAB) (.Array [StringTerm "a"]) record []
        = (none, [.Object [(StringTerm "a", IntNumberTerm 1)]]) := by
  have hgen : ∀ (o : Object) (kt : Term) (kset : Set), getObjectKeysParam kt = .ok kset →
      ∀ (σ : Type) (iter : Iter σ) (s : σ),
        builtinObjectFilter nested (.Object o) kt iter s
          = iter (.Object (o.filter (fun e => decide (e.1 ∈ kset)))) s := by
    intro o kt kset hkt σ iter s
    simp only [builtinObjectFilter, ObjectOperand, hkt, filter_call_eq nested o kset]
  constructor
  · exact hgen obj keys ks hk
  · rw [hgen sampleAB (.Array [StringTerm "a"]) [StringTerm "a"] rfl]
    decide

/-- Witness of C5 on the object (a: 1, b: 2) and the keys array ("a"). -/
theorem C5_filter_valid_keys_witness :
    getObjectKeysParam (.Array [StringTerm "a"]) = .ok [StringTerm "a"]
    ∧ builtinObjectFilter keepWhole (.Object sampleAB) (.Array [StringTerm "a"]) record []
        = record (.Object (sampleAB.filter (fun e => decide (e.1 ∈ [StringTerm "a"])))) [] :=
  ⟨rfl,
    (C5_filter_valid_keys keepWhole sampleAB (.Array [StringTerm "a"]) [StringTerm "a"]
      rfl).1 (List Term) record []⟩

/-- C6: for every Object `obj` (keys unique) and every keys argument on which
`getObjectKeysParam` succeeds, `builtinObjectFilter` and `builtinObjectRemove` deliver
Objects `F` and `R` such that no key is in both, every entry of `F` or `R` is an entry
of `obj`, and every entry of `obj` is in exactly one of `F` and `R`. -/
theorem C6_filter_remove_complement (nested : Term → Term → Except String Term)
    (obj : Object) (hnd : (Object.Keys obj).Nodup)
    (keys : Term) (ks : Set) (hk : getObjectKeysParam keys = .ok ks) :
    ∃ F R : Object,
      (∀ (σ : Type) (iter : Iter σ) (s : σ),
        builtinObjectFilter nested (.Object obj) keys iter s = iter (.Object F) s)
      ∧ (∀ (σ : Type) (iter : Iter σ) (s : σ),
        builtinObjectRemove (.Object obj) keys iter s = iter (.Object R) s)
      ∧ (∀ k, ¬ (k ∈ Object.Keys F ∧ k ∈ Object.Keys R))
      ∧ (∀ e, e ∈ F ∨ e ∈ R → e ∈ obj)
      ∧ (∀ e, e ∈ obj → (e ∈ F ∧ e ∉ R) ∨ (e ∈ R ∧ e ∉ F)) := by
  refine ⟨obj.filter (fun e => decide (e.1 ∈ ks)), obj.filter (fun e => decide (e.1 ∉ ks)),
    ?_, ?_, ?_, ?_, ?_⟩
  · intro σ iter s
    simp only [builtinObjectFilter, ObjectOperand, hk, filter_call_eq nested obj ks]
  · intro σ iter s
    simp only [builtinObjectRemove, ObjectOperand, hk, remove_loop_eq obj hnd ks]
  · rintro k ⟨h1, h2⟩
    simp only [Object.Keys, List.mem_map, List.mem_filter, decide_eq_true_eq] at h1 h2
    obtain ⟨e1, ⟨_, hin⟩, rfl⟩ := h1
    obtain ⟨e2, ⟨_, hout⟩, he⟩ := h2
    exact hout (he ▸ hin)
  · intro e he
    simp only [List.mem_filter] at he
    rcases he with h | h
    · exact h.1
    · exact h.1
  · intro e he
    simp only [List.mem_filter, decide_eq_true_eq]
    by_cases h : e.1 ∈ ks
    · exact Or.inl ⟨⟨he, h⟩, fun hh => hh.2 h⟩
    · exact Or.inr ⟨⟨he, h⟩, fun hh => h hh.2⟩

/-- Witness of C6 on the object (a: 1, b: 2) and the keys array ("a"): some pair of
Objects is delivered by the two builtins and splits the entries. -/
theorem C6_filter_remove_complement_witness :
    (Object.Keys sampleAB).Nodup
    ∧ getObjectKeysParam (.Array [StringTerm "a"]) = .ok [StringTerm "a"]
    ∧ ∃ F R : Object,
        builtinObjectFilter keepWhole (.Object sampleAB) (.Array [StringTerm "a"]) record []
          = record (.Object F) []
        ∧ builtinObjectRemove (.Object sampleAB) (.Array [StringTerm "a"]) record []
          = record (.Object R) []
        ∧ (∀ e, e ∈ sampleAB → (e ∈ F ∧ e ∉ R) ∨ (e ∈ R ∧ e ∉ F)) := by
  refine ⟨by decide, rfl, ?_⟩
  obtain ⟨F, R, hF, hR, _, _, hsplit⟩ :=
    C6_filter_remove_complement keepWhole sampleAB (by decide) (.Array [StringTerm "a"])
      [StringTerm "a"] rfl
  exact ⟨F, R, hF (List Term) record [], hR (List Term) record [], hsplit⟩

end topdown

namespace topdown
open ast builtins

/-- The function `getObjectKeysParam` succeeds exactly on an Array, a Set or an Object; on
every other value it returns the operand type error of position 2 whose expected types
read object, string, array, and both `builtinObjectRemove` and `builtinObjectFilter`
then return that very error with the host state untouched, that is without calling the
continuation. -/
theorem getObjectKeysParam_rejects (v : Term) :
    ((∃ ks, getObjectKeysParam v = .ok ks) ↔ isKeysShape v = true)
    ∧ (isKeysShape v = false →
        getObjectKeysParam v
          = .error (Error.OperandTypeErr 2 v ["object", "string", "array"])
        ∧ (∀ (obj : Object) (σ : Type) (iter : Iter σ) (s : σ),
            builtinObjectRemove (.Object obj) v iter s
              = (some (Error.OperandTypeErr 2 v ["object", "string", "array"]), s))
        ∧ (∀ (nested : Term → Term → Except String Term) (obj : Object) (σ : Type)
            (iter : Iter σ) (s : σ),
            builtinObjectFilter nested (.Object obj) v iter s
              = (some (Error.OperandTypeErr 2 v ["object", "string", "array"]), s))) := by
  have herr : isKeysShape v = false → getObjectKeysParam v
      = .error (Error.OperandTypeErr 2 v ["object", "string", "array"]) := by
    intro h
    cases v <;> first | rfl | exact absurd h (by simp [isKeysShape])
  refine ⟨?_, ?_⟩
  · constructor
    · rintro ⟨ks, hks⟩
      cases hshape : isKeysShape v with
      | true => rfl
      | false =>
        rw [herr hshape] at hks
        cases hks
    · intro h
      cases v with
      | Array xs => exact ⟨_, rfl⟩
      | Set xs => exact ⟨_, rfl⟩
      | Object o => exact ⟨_, rfl⟩
      | Null => exact absurd h (by simp [isKeysShape])
      | Boolean b => exact absurd h (by simp [isKeysShape])
      | Number n => exact absurd h (by simp [isKeysShape])
      | String s => exact absurd h (by simp [isKeysShape])
  · intro h
    refine ⟨herr h, ?_, ?_⟩
    · intro obj σ iter s
      simp only [builtinObjectRemove, ObjectOperand, herr h]
    · intro nested obj σ iter s
      simp only [builtinObjectFilter, ObjectOperand, herr h]

/-- C7: the code at the failing input.  On the String "a" `getObjectKeysParam` returns
the operand type error of position 2 whose expected types are object, string, array:
the source passes `types.S`, the string type, where its own comment ("a supplied ast
array, object, set value") and the claim have the set type.  The error named by the
claim, with expected types object, set, array, is not the one returned, neither by
`getObjectKeysParam` nor by `builtinObjectRemove`, which hands the error on without
calling the continuation. -/
theorem C7_keys_param_error_names_string :
    getObjectKeysParam (.String "a")
      = .error (Error.OperandTypeErr 2 (.String "a") ["object", "string", "array"])
    ∧ getObjectKeysParam (.String "a")
      ≠ .error (Error.OperandTypeErr 2 (.String "a") ["object", "set", "array"])
    ∧ builtinObjectRemove (.Object sampleAB) (.String "a") record []
      = (some (Error.OperandTypeErr 2 (.String "a") ["object", "string", "array"]), [])
    ∧ builtinObjectRemove (.Object sampleAB) (.String "a") record []
      ≠ (some (Error.OperandTypeErr 2 (.String "a") ["object", "set", "array"]), []) := by
  refine ⟨rfl, ?_, by decide, by decide⟩
  intro h
  have h2 : getObjectKeysParam (.String "a")
      = .error (Error.OperandTypeErr 2 (.String "a") ["object", "string", "array"]) := rfl
  rw [h2] at h
  have h3 := Except.error.inj h
  exact absurd h3 (by decide)

/-- C8: for a list of Terms `ks`, a Set `s` with the same members and an Object `o`
whose keys are exactly those Terms (its values being arbitrary), `getObjectKeysParam`
succeeds on the Array of `ks`, on `s` and on `o`, and the three key sets have the same
members, namely the Terms of `ks`; in the Object case the members are the keys. -/
theorem C8_keys_param_shapes (ks : List Term) (s : List Term) (o : Object)
    (hs : ∀ t, t ∈ s ↔ t ∈ ks) (ho : ∀ t, t ∈ Object.Keys o ↔ t ∈ ks) :
    ∃ k1 k2 k3 : Set,
      getObjectKeysParam (.Array ks) = .ok k1
      ∧ getObjectKeysParam (.Set s) = .ok k2
      ∧ getObjectKeysParam (.Object o) = .ok k3
      ∧ (∀ t, Set.Contains k1 t = Set.Contains k2 t ∧ Set.Contains k2 t = Set.Contains k3 t)
      ∧ (∀ t, Set.Contains k1 t = true ↔ t ∈ ks)
      ∧ (∀ t, Set.Contains k3 t = true ↔ t ∈ Object.Keys o) := by
  obtain ⟨k1, e1, m1⟩ := getObjectKeysParam_Array ks
  obtain ⟨k2, e2, m2⟩ := getObjectKeysParam_Set s
  obtain ⟨k3, e3, m3⟩ := getObjectKeysParam_Object o
  refine ⟨k1, k2, k3, e1, e2, e3, ?_, ?_, ?_⟩
  · intro t
    have h12 : t ∈ k1 ↔ t ∈ k2 := by rw [m1, m2, hs]
    have h23 : t ∈ k2 ↔ t ∈ k3 := by rw [m2, m3, hs, ho]
    simp only [Set.Contains]
    exact ⟨decide_eq_decide.mpr h12, decide_eq_decide.mpr h23⟩
  · intro t
    simp [Set.Contains, m1]
  · intro t
    simp [Set.Contains, m3]

/-- Witness of C8: the keys "a", "b" given as an Array with a repeated element, as a
Set, and as an Object whose values are numbers and which lists the keys in the other
order; the value 1 is a member of none of the key sets. -/
theorem C8_keys_param_shapes_witness :
    (∀ t, t ∈ [StringTerm "a", StringTerm "b"]
        ↔ t ∈ [StringTerm "a", StringTerm "b", StringTerm "a"])
    ∧ (∀ t, t ∈ Object.Keys
          [(StringTerm "b", IntNumberTerm 1), (StringTerm "a", IntNumberTerm 2)]
        ↔ t ∈ [StringTerm "a", StringTerm "b", StringTerm "a"])
    ∧ ∃ k1 k2 k3 : Set,
      getObjectKeysParam (.Array [StringTerm "a", StringTerm "b", StringTerm "a"]) = .ok k1
      ∧ getObjectKeysParam (.Set [StringTerm "a", StringTerm "b"]) = .ok k2
      ∧ getObjectKeysParam
          (.Object [(StringTerm "b", IntNumberTerm 1), (StringTerm "a", IntNumberTerm 2)])
          = .ok k3
      ∧ (∀ t, Set.Contains k1 t = Set.Contains k2 t ∧ Set.Contains k2 t = Set.Contains k3 t)
      ∧ (∀ t, Set.Contains k1 t = true ↔ t ∈ [StringTerm "a", StringTerm "b", StringTerm "a"])
      ∧ (∀ t, Set.Contains k3 t = true ↔ t ∈ Object.Keys
          [(StringTerm "b", IntNumberTerm 1), (StringTerm "a", IntNumberTerm 2)]) :=
  ⟨by intro t; simp; tauto, by intro t; simp [Object.Keys]; tauto,
    C8_keys_param_shapes [StringTerm "a", StringTerm "b", StringTerm "a"]
      [StringTerm "a", StringTerm "b"]
      [(StringTerm "b", IntNumberTerm 1), (StringTerm "a", IntNumberTerm 2)]
      (by intro t; simp; tauto)
      (by intro t; simp [Object.Keys]; tauto)⟩

/-- C9 as stated fails: with the key "a" present and mapped to 1, a lookup of "a" with
default 1 returns the default although the key is not absent. -/
theorem C9_get_counterexample :
    Object.Get sampleAB (StringTerm "a") ≠ none
    ∧ builtinObjectGet (.Object sampleAB) (StringTerm "a") (IntNumberTerm 1) record []
        = record (IntNumberTerm 1) [] := by
  constructor
  · decide
  · decide

/-- C9, amended: `builtinObjectGet` calls the continuation once; on the default when the
key is absent from the Object and on the exact stored term when it is present; so the
delivered term is the default only if the key is absent or the stored term is itself
equal to the default. -/
theorem C9_get_default_or_stored (obj : Object) (key dflt : Term) :
    (Object.Get obj key = none →
        ∀ (σ : Type) (iter : Iter σ) (s : σ),
          builtinObjectGet (.Object obj) key dflt iter s = iter dflt s)
    ∧ (∀ v, Object.Get obj key = some v →
        ∀ (σ : Type) (iter : Iter σ) (s : σ),
          builtinObjectGet (.Object obj) key dflt iter s = iter v s)
    ∧ (builtinObjectGet (.Object obj) key dflt record [] = record dflt []
        ↔ Object.Get obj key = none ∨ Object.Get obj key = some dflt) := by
  refine ⟨?_, ?_, ?_⟩
  · intro h σ iter s
    simp [builtinObjectGet, ObjectOperand, h]
  · intro v h σ iter s
    simp [builtinObjectGet, ObjectOperand, h]
  · cases h : Object.Get obj key with
    | none => simp [builtinObjectGet, ObjectOperand, h]
    | some v => simp [builtinObjectGet, ObjectOperand, h, record]

/-- Witness of the amended C9 on the object (a: 1, b: 2): the absent key "c" gives the
default and the present key "b" gives the stored 2. -/
theorem C9_get_default_or_stored_witness :
    Object.Get sampleAB (StringTerm "c") = none
    ∧ builtinObjectGet (.Object sampleAB) (StringTerm "c") (.Boolean true) record []
        = record (.Boolean true) []
    ∧ Object.Get sampleAB (StringTerm "b") = some (IntNumberTerm 2)
    ∧ builtinObjectGet (.Object sampleAB) (StringTerm "b") (.Boolean true) record []
        = record (IntNumberTerm 2) [] :=
  ⟨by decide,
    (C9_get_default_or_stored sampleAB (StringTerm "c") (.Boolean true)).1 (by decide)
      (List Term) record [],
    by decide,
    (C9_get_default_or_stored sampleAB (StringTerm "b") (.Boolean true)).2.1
      (IntNumberTerm 2) (by decide) (List Term) record []⟩

/-- C10: miss propagation.  For every `toIndex`, root, default and segment lists `p`,
`q`: if the walk over `p` from the root ends in a miss, then the walk over `p` followed
by `q` ends in a miss too, and `builtinObjectLookup` on any path string whose segments
are `p` followed by `q` delivers the default. -/
theorem C10_lookup_miss_propagates (toIdx : Array → Term → Except String Int)
    (root dflt : Term) (p q : List String)
    (hmiss : lookupLoop toIdx (some root) p = none) :
    lookupLoop toIdx (some root) (p ++ q) = none
    ∧ ∀ path : String, parts path = p ++ q →
        ∀ (σ : Type) (iter : Iter σ) (s : σ),
          builtinObjectLookup toIdx root path dflt iter s = iter dflt s := by
  have h : lookupLoop toIdx (some root) (p ++ q) = none := by
    rw [lookupLoop_append, hmiss, lookupLoop_none]
  refine ⟨h, ?_⟩
  intro path hp σ iter s
  simp [builtinObjectLookup, hp, h]

/-- Witness of C10 on the test case "bad over-reaching path": in the object
(a: (b: "x")) the segment "b" misses, so the path "b.c.x.y.z" gives the default. -/
theorem C10_lookup_miss_propagates_witness :
    lookupLoop toIndex (some (.Object sampleNested)) ["b"] = none
    ∧ parts "b.c.x.y.z" = ["b"] ++ ["c", "x", "y", "z"]
    ∧ builtinObjectLookup toIndex (.Object sampleNested) "b.c.x.y.z" (.Boolean true) record []
        = record (.Boolean true) [] :=
  ⟨by decide, by decide,
    (C10_lookup_miss_propagates toIndex (.Object sampleNested) (.Boolean true) ["b"]
      ["c", "x", "y", "z"] (by decide)).2 "b.c.x.y.z" (by decide) (List Term) record []⟩

end topdown

namespace topdown
open ast builtins

theorem splitDot_ne_nil (cs : List Char) : splitDot cs ≠ [] := by
  cases cs with
  | nil => simp [splitDot]
  | cons c cs =>
    by_cases h : c = '.'
    · simp [splitDot, h]
    · simp only [splitDot, h, if_false]
      cases splitDot cs <;> simp

theorem splitDot_append (a b : List Char) :
    splitDot (a ++ '.' :: b) = splitDot a ++ splitDot b := by
  induction a with
  | nil => simp [splitDot]
  | cons c cs ih =>
    by_cases h : c = '.'
    · simp [splitDot, h, ih]
    · have e : (c :: cs) ++ '.' :: b = c :: (cs ++ '.' :: b) := rfl
      rw [e]
      simp only [splitDot, h, if_false]
      rw [ih]
      cases hs : splitDot cs with
      | nil => exact absurd hs (splitDot_ne_nil cs)
      | cons p ps => simp

theorem splitDot_no_dot (cs : List Char) (h : '.' ∉ cs) : splitDot cs = [cs] := by
  induction cs with
  | nil => simp [splitDot]
  | cons c cs ih =>
    simp only [List.mem_cons, not_or] at h
    have hc : ¬ c = '.' := fun e => h.1 e.symm
    simp [splitDot, hc, ih h.2]

theorem parts_append_dot (p q : String) : parts (p ++ "." ++ q) = parts p ++ parts q := by
  have h : (p ++ "." ++ q).data = p.data ++ '.' :: q.data := by
    simp [String.data_append]
  simp [parts, h, splitDot_append]

theorem parts_no_dot (s : String) (h : '.' ∉ s.data) : parts s = [s] := by
  simp [parts, splitDot_no_dot s.data h]

/-- The outcome of `builtinObjectLookup` in terms of the walk: the term reached, or the
default after a miss, is handed to the continuation. -/
theorem builtinObjectLookup_eq {σ : Type} (toIdx : Array → Term → Except String Int)
    (root : Term) (path : String) (dflt : Term) (iter : Iter σ) (s : σ) :
    builtinObjectLookup toIdx root path dflt iter s
      = iter ((lookupLoop toIdx (some root) (parts path)).getD dflt) s := by
  unfold builtinObjectLookup
  cases lookupLoop toIdx (some root) (parts path) <;> rfl

theorem digitChar_toNat (d : Nat) (h : d < 10) : (Nat.digitChar d).toNat - 48 = d := by
  interval_cases d <;> decide

theorem digitChar_isDigit (d : Nat) (h : d < 10) : (Nat.digitChar d).isDigit = true := by
  interval_cases d <;> decide

theorem toDigitsCore_value (fuel n : Nat) (ds : List Char) (h : n < fuel) :
    (Nat.toDigitsCore 10 fuel n ds).foldl (fun m c => 10 * m + (c.toNat - 48)) 0
      = ds.foldl (fun m c => 10 * m + (c.toNat - 48)) n := by
  induction fuel generalizing n ds with
  | zero => omega
  | succ fuel ih =>
    have hd := digitChar_toNat (n % 10) (Nat.mod_lt _ (by norm_num))
    by_cases h0 : n / 10 = 0
    · have hn : n % 10 = n := Nat.mod_eq_of_lt (by omega)
      rw [hn] at hd
      simp only [Nat.toDigitsCore, h0, if_true, List.foldl_cons, hn, hd]
      simp
    · simp only [Nat.toDigitsCore, h0, if_false]
      rw [ih (n / 10) _ (by omega)]
      simp only [List.foldl_cons, hd]
      congr 1
      omega

theorem toDigitsCore_all_digits (fuel n : Nat) (ds : List Char)
    (hds : ds.all Char.isDigit = true) :
    (Nat.toDigitsCore 10 fuel n ds).all Char.isDigit = true := by
  induction fuel generalizing n ds with
  | zero => simpa [Nat.toDigitsCore] using hds
  | succ fuel ih =>
    have hd := digitChar_isDigit (n % 10) (Nat.mod_lt _ (by norm_num))
    have hcons : (Nat.digitChar (n % 10) :: ds).all Char.isDigit = true := by
      simp only [List.all_cons, hd, hds, Bool.and_self]
    by_cases h0 : n / 10 = 0
    · simpa only [Nat.toDigitsCore, h0, if_true] using hcons
    · simp only [Nat.toDigitsCore, h0, if_false]
      exact ih _ _ hcons

theorem toDigitsCore_ne_nil (fuel n : Nat) (ds : List Char) (h : n < fuel) :
    Nat.toDigitsCore 10 fuel n ds ≠ [] := by
  induction fuel generalizing n ds with
  | zero => omega
  | succ fuel ih =>
    by_cases h0 : n / 10 = 0
    · simp [Nat.toDigitsCore, h0]
    · simp only [Nat.toDigitsCore, h0, if_false]
      exact ih _ _ (by omega)

/-- The modelled `toIndex` reads the canonical decimal numeral of `i` as `i`. -/
theorem toIndex_repr (original : Array) (i : Nat) :
    toIndex original (StringTerm (Nat.repr i)) = .ok (i : Int) := by
  have hdata : (Nat.repr i).data = Nat.toDigitsCore 10 (i + 1) i [] := rfl
  have h1 := toDigitsCore_ne_nil (i + 1) i [] (by omega)
  have h2 := toDigitsCore_all_digits (i + 1) i [] (by simp)
  have h3 := toDigitsCore_value (i + 1) i [] (by omega)
  simp only [List.foldl_nil] at h3
  simp only [toIndex, StringTerm, hdata, h3]
  rw [if_pos ⟨h1, h2⟩]

end topdown

namespace topdown
open ast builtins

/-- The array branch of `lookupStep`: the step yields the element at the index that
`toIndex` returns when that index is within `0 ≤ i < Len`, and nothing otherwise. -/
theorem lookupStep_Array (toIdx : Array → Term → Except String Int) (xs : List Term)
    (seg : String) :
    lookupStep toIdx (.Array xs) seg =
      match toIdx xs (StringTerm seg) with
      | .error _ => none
      | .ok i => if 0 ≤ i ∧ i < (xs.length : Int) then xs.get? i.toNat else none := by
  simp only [lookupStep]
  cases h : toIdx xs (StringTerm seg) with
  | error e => rfl
  | ok i =>
    simp only [Array.Len, ArrayOperand, Array.Get, IntNumberTerm]
    by_cases h1 : i < 0
    · have h2 : ¬ (0 ≤ i ∧ i < (xs.length : Int)) := by omega
      simp [h1, h2]
    · by_cases h3 : i > (xs.length : Int)
      · have h2 : ¬ (0 ≤ i ∧ i < (xs.length : Int)) := by omega
        simp [h3, h2]
      · have h4 : ¬ (i < 0 ∨ i > (xs.length : Int)) := by omega
        simp [h4]

/-- C11: for every root, path string and default (and every `toIndex`),
`builtinObjectLookup` returns no error of its own: there is one term, either the term
the walk over the path reaches or, after a miss, the default, such that the outcome of
the builtin is the outcome of a single call of the continuation on that term. -/
theorem C11_lookup_total (toIdx : Array → Term → Except String Int)
    (root : Term) (path : String) (dflt : Term) :
    ∃ t : Term,
      ((lookupLoop toIdx (some root) (parts path) = some t)
        ∨ (lookupLoop toIdx (some root) (parts path) = none ∧ t = dflt))
      ∧ (∀ (σ : Type) (iter : Iter σ) (s : σ),
          builtinObjectLookup toIdx root path dflt iter s = iter t s)
      ∧ builtinObjectLookup toIdx root path dflt record [] = (none, [t]) := by
  cases h : lookupLoop toIdx (some root) (parts path) with
  | none =>
    refine ⟨dflt, Or.inr ⟨rfl, rfl⟩, ?_, ?_⟩
    · intro σ iter s
      simp [builtinObjectLookup, h]
    · simp [builtinObjectLookup, h, record]
  | some t =>
    refine ⟨t, Or.inl rfl, ?_, ?_⟩
    · intro σ iter s
      simp [builtinObjectLookup, h]
    · simp [builtinObjectLookup, h, record]

/-- C12: when the current term is an Array `xs` and `i < xs.length`, the step on the
canonical decimal numeral of `i` yields the element at index `i` (with the modelled
`toIndex`, and with any `toIndex` that returns `i` on the segment), and the walk goes on
from that element; and the lookup of "a.0.b.0" in the object
(a: ((b: ("x")))) with default true gives "x". -/
theorem C12_lookup_array_index (xs : List Term) (i : Nat) (hlt : i < xs.length) :
    ∃ t : Term, xs.get? i = some t
      ∧ lookupStep toIndex (.Array xs) (Nat.repr i) = some t
      ∧ (∀ rest : List String,
          lookupLoop toIndex (some (.Array xs)) (Nat.repr i :: rest)
            = lookupLoop toIndex (some t) rest)
      ∧ (∀ (toIdx : Array → Term → Except String Int) (seg : String),
          toIdx xs (StringTerm seg) = .ok (i : Int) →
            lookupStep toIdx (.Array xs) seg = some t
            ∧ ∀ rest : List String,
                lookupLoop toIdx (some (.Array xs)) (seg :: rest)
                  = lookupLoop toIdx (some t) rest)
      ∧ builtinObjectLookup toIndex (.Object sampleIndexed) "a.0.b.0" (.Boolean true) record []
          = (none, [StringTerm "x"]) := by
  have hgen : ∀ (toIdx : Array → Term → Except String Int) (seg : String),
      toIdx xs (StringTerm seg) = .ok (i : Int) →
        lookupStep toIdx (.Array xs) seg = xs.get? i := by
    intro toIdx seg h
    rw [lookupStep_Array, h]
    have h1 : (0 : Int) ≤ (i : Int) ∧ (i : Int) < (xs.length : Int) := by omega
    simp [h1]
  obtain ⟨t, ht⟩ : ∃ t, xs.get? i = some t := ⟨xs.get ⟨i, hlt⟩, List.get?_eq_get hlt⟩
  refine ⟨t, ht, ?_, ?_, ?_, ?_⟩
  · rw [hgen toIndex (Nat.repr i) (toIndex_repr xs i), ht]
  · intro rest
    simp only [lookupLoop]
    rw [hgen toIndex (Nat.repr i) (toIndex_repr xs i), ht]
  · intro toIdx seg h
    refine ⟨by rw [hgen toIdx seg h, ht], ?_⟩
    intro rest
    simp only [lookupLoop]
    rw [hgen toIdx seg h, ht]
  · decide

/-- Witness of C12: index 1 of a two-element array. -/
theorem C12_lookup_array_index_witness :
    1 < [StringTerm "x", StringTerm "y"].length
    ∧ ∃ t : Term, [StringTerm "x", StringTerm "y"].get? 1 = some t
      ∧ lookupStep toIndex (.Array [StringTerm "x", StringTerm "y"]) (Nat.repr 1) = some t := by
  refine ⟨by decide, ?_⟩
  obtain ⟨t, h1, h2, _⟩ :=
    C12_lookup_array_index [StringTerm "x", StringTerm "y"] 1 (by decide)
  exact ⟨t, h1, h2⟩

/-- C13: when the segments `p` resolve from the root to a term `t` that is neither an
Object nor an Array, any path with at least one more segment gives the default, while
the path made of exactly `p` gives `t`; and in the object (a: (b: "x")) with default
true the path "a.b" gives "x" and the path "a.b.c.d" gives true. -/
theorem C13_lookup_over_reach (toIdx : Array → Term → Except String Int)
    (root dflt : Term) (p : List String) (t : Term)
    (hp : lookupLoop toIdx (some root) p = some t)
    (hobj : isObject t = false) (harr : isArray t = false) :
    (∀ (seg : String) (q : List String) (path : String), parts path = p ++ seg :: q →
        ∀ (σ : Type) (iter : Iter σ) (s : σ),
          builtinObjectLookup toIdx root path dflt iter s = iter dflt s)
    ∧ (∀ path : String, parts path = p →
        ∀ (σ : Type) (iter : Iter σ) (s : σ),
          builtinObjectLookup toIdx root path dflt iter s = iter t s)
    ∧ builtinObjectLookup toIndex (.Object sampleNested) "a.b" (.Boolean true) record []
        = (none, [StringTerm "x"])
    ∧ builtinObjectLookup toIndex (.Object sampleNested) "a.b.c.d" (.Boolean true) record []
        = (none, [.Boolean true]) := by
  refine ⟨?_, ?_, by decide, by decide⟩
  · intro seg q path hpath σ iter s
    have hstep : lookupStep toIdx t seg = none := by
      cases t with
      | Object o => exact absurd hobj (by simp [isObject])
      | Array xs => exact absurd harr (by simp [isArray])
      | Null => rfl
      | Boolean b => rfl
      | Number n => rfl
      | String x => rfl
      | Set xs => rfl
    have h : lookupLoop toIdx (some root) (p ++ seg :: q) = none := by
      rw [lookupLoop_append, hp]
      simp only [lookupLoop, hstep, lookupLoop_none]
    rw [builtinObjectLookup_eq, hpath, h]
    rfl
  · intro path hpath σ iter s
    rw [builtinObjectLookup_eq, hpath, hp]
    rfl

/-- Witness of C13 on the test cases "exact path" and "over-reaching path": "a", "b"
reaches the string "x", and "a.b.c.d" over-reaches it. -/
theorem C13_lookup_over_reach_witness :
    lookupLoop toIndex (some (.Object sampleNested)) ["a", "b"] = some (StringTerm "x")
    ∧ isObject (StringTerm "x") = false ∧ isArray (StringTerm "x") = false
    ∧ parts "a.b.c.d" = ["a", "b"] ++ "c" :: ["d"]
    ∧ builtinObjectLookup toIndex (.Object sampleNested) "a.b.c.d" (.Boolean true) record []
        = record (.Boolean true) [] :=
  ⟨by decide, by decide, by decide, by decide,
    (C13_lookup_over_reach toIndex (.Object sampleNested) (.Boolean true) ["a", "b"]
      (StringTerm "x") (by decide) (by decide) (by decide)).1 "c" ["d"] "a.b.c.d" (by decide)
      (List Term) record []⟩

end topdown

namespace topdown
open ast builtins

/-- C14: when the current term is an Array `xs`, a step misses whenever `toIndex` fails
on the segment, returns a negative index, or returns an index `i ≥ xs.length`; this
includes `i = xs.length`, which passes the bounds check of the step and misses when the
element is fetched.  With the modelled `toIndex` the decimal numeral of any
`n ≥ xs.length` misses, and a lookup whose walk steps on such a segment gives the
default: in the object (a: ((b: ("x")))) the paths "a.1", "a.7", "a.-1" and
"a.x" give the default. -/
theorem C14_lookup_bad_index (toIdx : Array → Term → Except String Int)
    (xs : List Term) (seg : String) :
    (∀ i : Int, toIdx xs (StringTerm seg) = .ok i → (xs.length : Int) ≤ i ∨ i < 0 →
        lookupStep toIdx (.Array xs) seg = none)
    ∧ (∀ e : String, toIdx xs (StringTerm seg) = .error e →
        lookupStep toIdx (.Array xs) seg = none)
    ∧ (∀ n : Nat, xs.length ≤ n → lookupStep toIndex (.Array xs) (Nat.repr n) = none)
    ∧ (lookupStep toIdx (.Array xs) seg = none →
        ∀ (rest : List String) (path : String) (dflt : Term), parts path = seg :: rest →
          ∀ (σ : Type) (iter : Iter σ) (s : σ),
            builtinObjectLookup toIdx (.Array xs) path dflt iter s = iter dflt s)
    ∧ builtinObjectLookup toIndex (.Object sampleIndexed) "a.1" (.Boolean true) record []
        = (none, [.Boolean true])
    ∧ builtinObjectLookup toIndex (.Object sampleIndexed) "a.7" (.Boolean true) record []
        = (none, [.Boolean true])
    ∧ builtinObjectLookup toIndex (.Object sampleIndexed) "a.-1" (.Boolean true) record []
        = (none, [.Boolean true])
    ∧ builtinObjectLookup toIndex (.Object sampleIndexed) "a.x" (.Boolean true) record []
        = (none, [.Boolean true]) := by
  refine ⟨?_, ?_, ?_, ?_, by decide, by decide, by decide, by decide⟩
  · intro i h hi
    rw [lookupStep_Array, h]
    have h2 : ¬ (0 ≤ i ∧ i < (xs.length : Int)) := by omega
    simp [h2]
  · intro e h
    rw [lookupStep_Array, h]
  · intro n hn
    rw [lookupStep_Array, toIndex_repr]
    have h2 : ¬ ((0 : Int) ≤ (n : Int) ∧ (n : Int) < (xs.length : Int)) := by omega
    simp only [h2, if_false]
  · intro hstep rest path dflt hpath σ iter s
    rw [builtinObjectLookup_eq, hpath]
    simp only [lookupLoop, hstep, lookupLoop_none]
    rfl

/-- Witness of C14 on a one-element array: the index 1, equal to the length, passes the
bounds check `idx > Len` and still misses; so does a segment that is no numeral. -/
theorem C14_lookup_bad_index_witness :
    toIndex [StringTerm "x"] (StringTerm "1") = .ok 1
    ∧ ¬ ((1 : Int) > Array.Len [StringTerm "x"])
    ∧ lookupStep toIndex (.Array [StringTerm "x"]) "1" = none
    ∧ toIndex [StringTerm "x"] (StringTerm "x") = .error "invalid string for indexing"
    ∧ lookupStep toIndex (.Array [StringTerm "x"]) "x" = none
    ∧ builtinObjectLookup toIndex (.Array [StringTerm "x"]) "1.y" (.Boolean true) record []
        = record (.Boolean true) [] :=
  ⟨rfl, by decide,
    (C14_lookup_bad_index toIndex [StringTerm "x"] "1").1 1 rfl (Or.inl (by decide)),
    rfl,
    (C14_lookup_bad_index toIndex [StringTerm "x"] "x").2.1 _ rfl,
    (C14_lookup_bad_index toIndex [StringTerm "x"] "1").2.2.2.1 (by decide) ["y"] "1.y"
      (.Boolean true) (by decide) (List Term) record []⟩

/-- C15 as stated fails: the path "a" in the object (a: null) resolves to the stored
Null term, and the lookup delivers that Null term, not the default true. -/
theorem C15_lookup_null_counterexample :
    lookupLoop toIndex (some (.Object sampleNull)) (parts "a") = some Term.Null
    ∧ builtinObjectLookup toIndex (.Object sampleNull) "a" (.Boolean true) record []
        = record Term.Null []
    ∧ builtinObjectLookup toIndex (.Object sampleNull) "a" (.Boolean true) record []
        ≠ record (.Boolean true) [] := by
  refine ⟨by decide, by decide, by decide⟩

/-- C15, amended: the lookup delivers the default exactly when the walk ends in a miss
(the Go nil); when the walk ends on a term, that term is delivered, also when it is the
Null value: the path "a" in the object (a: null) yields null. -/
theorem C15_lookup_nil_default (toIdx : Array → Term → Except String Int)
    (root : Term) (path : String) (dflt : Term) :
    (lookupLoop toIdx (some root) (parts path) = none →
        ∀ (σ : Type) (iter : Iter σ) (s : σ),
          builtinObjectLookup toIdx root path dflt iter s = iter dflt s)
    ∧ (∀ t : Term, lookupLoop toIdx (some root) (parts path) = some t →
        ∀ (σ : Type) (iter : Iter σ) (s : σ),
          builtinObjectLookup toIdx root path dflt iter s = iter t s)
    ∧ builtinObjectLookup toIdx (.Object sampleNull) "a" dflt record []
        = (none, [Term.Null]) := by
  refine ⟨?_, ?_, ?_⟩
  · intro h σ iter s
    rw [builtinObjectLookup_eq, h]
    rfl
  · intro t h σ iter s
    rw [builtinObjectLookup_eq, h]
    rfl
  · rw [builtinObjectLookup_eq]
    rfl

/-- Witness of the amended C15: a miss on the empty object gives the default, a walk
that ends on the stored Null gives Null. -/
theorem C15_lookup_nil_default_witness :
    lookupLoop toIndex (some (.Object [])) (parts "b.c") = none
    ∧ builtinObjectLookup toIndex (.Object []) "b.c" (.Boolean true) record []
        = record (.Boolean true) []
    ∧ lookupLoop toIndex (some (.Object sampleNull)) (parts "a") = some Term.Null
    ∧ builtinObjectLookup toIndex (.Object sampleNull) "a" (.Boolean true) record []
        = record Term.Null [] :=
  ⟨by decide,
    (C15_lookup_nil_default toIndex (.Object []) "b.c" (.Boolean true)).1 (by decide)
      (List Term) record [],
    by decide,
    (C15_lookup_nil_default toIndex (.Object sampleNull) "a" (.Boolean true)).2.1 Term.Null
      (by decide) (List Term) record []⟩

/-- C16: for every Object, every string `s` without the character '.' (the empty string
included) and every default, `builtinObjectLookup` on the path `s` has the same outcome
as `builtinObjectGet` on the key String `s`, for every continuation. -/
theorem C16_lookup_refines_get (toIdx : Array → Term → Except String Int)
    (obj : Object) (s : String) (dflt : Term) (hdot : '.' ∉ s.data) :
    ∀ (σ : Type) (iter : Iter σ) (st : σ),
      builtinObjectLookup toIdx (.Object obj) s dflt iter st
        = builtinObjectGet (.Object obj) (StringTerm s) dflt iter st := by
  intro σ iter st
  rw [builtinObjectLookup_eq, parts_no_dot s hdot]
  simp only [lookupLoop, lookupStep, builtinObjectGet, ObjectOperand]
  cases Object.Get obj (StringTerm s) <;> rfl

/-- Witness of C16 on the key "a" and on the empty string, which is looked up as the
key "". -/
theorem C16_lookup_refines_get_witness :
    '.' ∉ "a".data ∧ '.' ∉ "".data
    ∧ builtinObjectLookup toIndex (.Object sampleAB) "a" (StringTerm "c") record []
        = builtinObjectGet (.Object sampleAB) (StringTerm "a") (StringTerm "c") record []
    ∧ builtinObjectLookup toIndex (.Object [(StringTerm "", IntNumberTerm 5)]) ""
          (StringTerm "c") record []
        = builtinObjectGet (.Object [(StringTerm "", IntNumberTerm 5)]) (StringTerm "")
          (StringTerm "c") record []
    ∧ builtinObjectGet (.Object [(StringTerm "", IntNumberTerm 5)]) (StringTerm "")
          (StringTerm "c") record [] = (none, [IntNumberTerm 5]) :=
  ⟨by decide, by decide,
    C16_lookup_refines_get toIndex sampleAB "a" (StringTerm "c") (by decide) (List Term)
      record [],
    C16_lookup_refines_get toIndex [(StringTerm "", IntNumberTerm 5)] "" (StringTerm "c")
      (by decide) (List Term) record [],
    by decide⟩

/-- C17: path composition.  For every root, default and strings `p`, `q`: when the walk
over `p` reaches a term `v`, the lookup of `p ++ "." ++ q` from the root has the outcome
of the lookup of `q` from `v`; when the walk over `p` misses, it delivers the
default. -/
theorem C17_lookup_composition (toIdx : Array → Term → Except String Int)
    (root dflt : Term) (p q : String) :
    (∀ v : Term, lookupLoop toIdx (some root) (parts p) = some v →
        ∀ (σ : Type) (iter : Iter σ) (s : σ),
          builtinObjectLookup toIdx root (p ++ "." ++ q) dflt iter s
            = builtinObjectLookup toIdx v q dflt iter s)
    ∧ (lookupLoop toIdx (some root) (parts p) = none →
        ∀ (σ : Type) (iter : Iter σ) (s : σ),
          builtinObjectLookup toIdx root (p ++ "." ++ q) dflt iter s = iter dflt s) := by
  constructor
  · intro v hv σ iter s
    rw [builtinObjectLookup_eq, builtinObjectLookup_eq, parts_append_dot, lookupLoop_append,
      hv]
  · intro h σ iter s
    rw [builtinObjectLookup_eq, parts_append_dot, lookupLoop_append, h, lookupLoop_none]
    rfl

/-- Witness of C17 in the object (a: ((b: ("x")))): "a.0" reaches the inner object, so
"a.0" ++ "." ++ "b.0" is looked up as "b.0" from there; "z" misses, so "z" ++ "." ++ "b"
gives the default. -/
theorem C17_lookup_composition_witness :
    lookupLoop toIndex (some (.Object sampleIndexed)) (parts "a.0")
        = some (.Object [(StringTerm "b", .Array [StringTerm "x"])])
    ∧ builtinObjectLookup toIndex (.Object sampleIndexed) ("a.0" ++ "." ++ "b.0")
          (.Boolean true) record []
        = builtinObjectLookup toIndex (.Object [(StringTerm "b", .Array [StringTerm "x"])])
          "b.0" (.Boolean true) record []
    ∧ lookupLoop toIndex (some (.Object sampleIndexed)) (parts "z") = none
    ∧ builtinObjectLookup toIndex (.Object sampleIndexed) ("z" ++ "." ++ "b")
          (.Boolean true) record []
        = record (.Boolean true) [] :=
  ⟨by decide,
    (C17_lookup_composition toIndex (.Object sampleIndexed) (.Boolean true) "a.0" "b.0").1
      _ (by decide) (List Term) record [],
    by decide,
    (C17_lookup_composition toIndex (.Object sampleIndexed) (.Boolean true) "z" "b").2
      (by decide) (List Term) record []⟩

end topdown

namespace topdown
open ast builtins

theorem Nodup_Keys_filter (obj : Object) (hnd : (Object.Keys obj).Nodup)
    (p : Term × Term → Bool) : (Object.Keys (obj.filter p)).Nodup := by
  have hsub : List.Sublist (Object.Keys (obj.filter p)) (Object.Keys obj) :=
    List.Sublist.map Prod.fst (List.filter_sublist obj)
  exact hsub.nodup hnd

/-- Merging the entries of an Object (keys unique) that satisfy a test on the key with
those that do not gives the two lists one after the other. -/
theorem mergeWithOverwrite_split (obj : Object) (hnd : (Object.Keys obj).Nodup)
    (ks : List Term) :
    mergeWithOverwrite (obj.filter (fun e => decide (e.1 ∈ ks)))
        (obj.filter (fun e => decide (e.1 ∉ ks)))
      = obj.filter (fun e => decide (e.1 ∈ ks)) ++ obj.filter (fun e => decide (e.1 ∉ ks)) := by
  rw [mergeWithOverwrite_closed _ _ (Nodup_Keys_filter obj hnd _) (Nodup_Keys_filter obj hnd _)]
  congr 1
  · have h : ∀ e ∈ obj.filter (fun e => decide (e.1 ∈ ks)),
        (e.1, mergedValue (obj.filter (fun e => decide (e.1 ∉ ks))) e) = e := by
      intro e he
      have hin : e.1 ∈ ks := by simpa using (List.mem_filter.mp he).2
      have hget : Object.Get (obj.filter (fun e => decide (e.1 ∉ ks))) e.1 = none := by
        rw [Object.Get_eq_none_iff]
        simp only [Object.Keys, List.mem_map, List.mem_filter, decide_eq_true_eq, not_exists,
          not_and]
        intro x hx hxe
        exact hx.2 (hxe ▸ hin)
      simp only [mergedValue, hget]
    calc List.map (fun e => (e.1, mergedValue (obj.filter (fun e => decide (e.1 ∉ ks))) e))
          (obj.filter (fun e => decide (e.1 ∈ ks)))
        = List.map id (obj.filter (fun e => decide (e.1 ∈ ks))) :=
          List.map_congr_left (fun e he => h e he)
      _ = obj.filter (fun e => decide (e.1 ∈ ks)) := List.map_id _
  · apply List.filter_eq_self.mpr
    intro e he
    have hout : e.1 ∉ ks := by simpa using (List.mem_filter.mp he).2
    simp only [decide_eq_true_eq, Object.Get_eq_none_iff, Object.Keys, List.mem_map,
      List.mem_filter, not_exists, not_and]
    intro x hx hxe
    exact hout (hxe ▸ hx.2)

/-- C18: for every Object `obj` (keys unique) and every keys argument on which
`getObjectKeysParam` succeeds, the Objects `F` and `R` that `builtinObjectFilter` and
`builtinObjectRemove` deliver recombine to `obj`: `mergeWithOverwrite F R` has exactly
the entries of `obj` (it is equal to `obj` as a mapping) and stores under every key what
`obj` stores. -/
theorem C18_filter_remove_recombine (nested : Term → Term → Except String Term)
    (obj : Object) (hnd : (Object.Keys obj).Nodup)
    (keys : Term) (ks : Set) (hk : getObjectKeysParam keys = .ok ks) :
    ∃ F R : Object,
      (∀ (σ : Type) (iter : Iter σ) (s : σ),
        builtinObjectFilter nested (.Object obj) keys iter s = iter (.Object F) s)
      ∧ (∀ (σ : Type) (iter : Iter σ) (s : σ),
        builtinObjectRemove (.Object obj) keys iter s = iter (.Object R) s)
      ∧ Object.Equal (mergeWithOverwrite F R) obj
      ∧ (∀ k, Object.Get (mergeWithOverwrite F R) k = Object.Get obj k) := by
  refine ⟨obj.filter (fun e => decide (e.1 ∈ ks)), obj.filter (fun e => decide (e.1 ∉ ks)),
    ?_, ?_, ?_, ?_⟩
  · intro σ iter s
    simp only [builtinObjectFilter, ObjectOperand, hk, filter_call_eq nested obj ks]
  · intro σ iter s
    simp only [builtinObjectRemove, ObjectOperand, hk, remove_loop_eq obj hnd ks]
  · rw [mergeWithOverwrite_split obj hnd ks]
    have h := List.filter_append_perm (fun e : Term × Term => decide (e.1 ∈ ks)) obj
    have e : (fun e : Term × Term => decide (e.1 ∉ ks))
        = (fun x => !(fun e : Term × Term => decide (e.1 ∈ ks)) x) := by
      funext x
      simp
    rw [e]
    exact h
  · intro k
    rw [mergeWithOverwrite_split obj hnd ks, Object.Get_append,
      Object.Get_filter obj (fun k => decide (k ∈ ks)) k,
      Object.Get_filter obj (fun k => decide (k ∉ ks)) k]
    by_cases h : k ∈ ks
    · simp [h]
    · simp [h]

/-- Witness of C18 on the object (a: 1, b: 2) and the keys array ("b"): the merge of
the two halves lists "b" first, and is equal to the object as a mapping. -/
theorem C18_filter_remove_recombine_witness :
    (Object.Keys sampleAB).Nodup
    ∧ getObjectKeysParam (.Array [StringTerm "b"]) = .ok [StringTerm "b"]
    ∧ ∃ F R : Object,
        builtinObjectFilter keepWhole (.Object sampleAB) (.Array [StringTerm "b"]) record []
          = record (.Object F) []
        ∧ builtinObjectRemove (.Object sampleAB) (.Array [StringTerm "b"]) record []
          = record (.Object R) []
        ∧ Object.Equal (mergeWithOverwrite F R) sampleAB := by
  refine ⟨by decide, rfl, ?_⟩
  obtain ⟨F, R, hF, hR, heq, _⟩ :=
    C18_filter_remove_recombine keepWhole sampleAB (by decide) (.Array [StringTerm "b"])
      [StringTerm "b"] rfl
  exact ⟨F, R, hF (List Term) record [], hR (List Term) record [], heq⟩

end topdown

namespace topdown
open ast builtins

theorem mergeWithOverwrite_empty_right (a : Object) (hnd : (Object.Keys a).Nodup) :
    mergeWithOverwrite a [] = a := by
  rw [mergeWithOverwrite_closed a [] hnd (by simp [Object.Keys])]
  simp only [List.filter_nil, List.append_nil, mergedValue, Object.Get]
  exact List.map_id a

theorem mergeWithOverwrite_empty_left (a : Object) (hnd : (Object.Keys a).Nodup) :
    mergeWithOverwrite [] a = a := by
  rw [mergeWithOverwrite_closed [] a (by simp [Object.Keys]) hnd]
  simp [Object.Get]

/-- Merging an Object (keys unique) with itself gives it back, provided the resolver
gives back each of its values when that value meets itself. -/
theorem mergeWithOverwrite_self_of (a : Object) (hnd : (Object.Keys a).Nodup)
    (hvals : ∀ e ∈ a, (mergeWithOverwrite.resolve e.2 e.2).1 = e.2) :
    mergeWithOverwrite a a = a := by
  rw [mergeWithOverwrite_closed a a hnd hnd]
  have hmap : a.map (fun e => (e.1, mergedValue a e)) = a := by
    have h : ∀ e ∈ a, (e.1, mergedValue a e) = e := by
      intro e he
      have hget : Object.Get a e.1 = some e.2 := Object.Get_of_mem a hnd e.1 e.2 he
      simp only [mergedValue, hget, hvals e he]
    calc a.map (fun e => (e.1, mergedValue a e)) = a.map id :=
          List.map_congr_left (fun e he => h e he)
      _ = a := List.map_id a
  have hfil : a.filter (fun e => decide (Object.Get a e.1 = none)) = [] := by
    apply List.filter_eq_nil_iff.mpr
    intro e he
    have hget : Object.Get a e.1 = some e.2 := Object.Get_of_mem a hnd e.1 e.2 he
    simp [hget]
  rw [hmap, hfil, List.append_nil]

mutual
/-- The resolver of `mergeWithOverwrite` gives back a value that meets itself. -/
theorem resolve_self : ∀ v : Term, Term.keysUnique v = true →
    (mergeWithOverwrite.resolve v v).1 = v
  | .Object o, h => by
    simp only [Term.keysUnique, Bool.and_eq_true, decide_eq_true_eq] at h
    rw [resolve_Object]
    simp only
    rw [mergeWithOverwrite_self_of o h.1 (resolve_self_entries o h.2)]
  | .Null, _ => rfl
  | .Boolean _, _ => rfl
  | .Number _, _ => rfl
  | .String _, _ => rfl
  | .Array _, _ => rfl
  | .Set _, _ => rfl
/-- The resolver gives back every value of a list of entries that meets itself. -/
theorem resolve_self_entries : ∀ kvs : List (Term × Term),
    Term.keysUniqueEntries kvs = true →
    ∀ e ∈ kvs, (mergeWithOverwrite.resolve e.2 e.2).1 = e.2
  | [], _ => by
    intro e he
    cases he
  | (k, v) :: rest, h => by
    simp only [Term.keysUniqueEntries, Bool.and_eq_true] at h
    intro e he
    rcases List.mem_cons.mp he with he | he
    · subst he
      exact resolve_self v h.1
    · exact resolve_self_entries rest h.2 e he
end

/-- C19: for every Object `a` whose keys are unique at every nesting depth,
`mergeWithOverwrite a a = a`, `mergeWithOverwrite a [] = a` and
`mergeWithOverwrite [] a = a`, as equalities of terms entry for entry. -/
theorem C19_merge_idempotent_identity (a : Object)
    (hu : Term.keysUnique (.Object a) = true) :
    mergeWithOverwrite a a = a
    ∧ mergeWithOverwrite a [] = a
    ∧ mergeWithOverwrite [] a = a := by
  have h := hu
  simp only [Term.keysUnique, Bool.and_eq_true, decide_eq_true_eq] at h
  exact ⟨mergeWithOverwrite_self_of a h.1 (resolve_self_entries a h.2),
    mergeWithOverwrite_empty_right a h.1, mergeWithOverwrite_empty_left a h.1⟩

/-- Witness of C19 on an Object nested two levels deep. -/
theorem C19_merge_idempotent_identity_witness :
    Term.keysUnique (.Object
        [(StringTerm "a", .Object sampleAX), (StringTerm "b", IntNumberTerm 2)]) = true
    ∧ mergeWithOverwrite
        [(StringTerm "a", .Object sampleAX), (StringTerm "b", IntNumberTerm 2)]
        [(StringTerm "a", .Object sampleAX), (StringTerm "b", IntNumberTerm 2)]
      = [(StringTerm "a", .Object sampleAX), (StringTerm "b", IntNumberTerm 2)]
    ∧ mergeWithOverwrite
        [(StringTerm "a", .Object sampleAX), (StringTerm "b", IntNumberTerm 2)] []
      = [(StringTerm "a", .Object sampleAX), (StringTerm "b", IntNumberTerm 2)]
    ∧ mergeWithOverwrite []
        [(StringTerm "a", .Object sampleAX), (StringTerm "b", IntNumberTerm 2)]
      = [(StringTerm "a", .Object sampleAX), (StringTerm "b", IntNumberTerm 2)] :=
  ⟨by decide,
    C19_merge_idempotent_identity
      [(StringTerm "a", .Object sampleAX), (StringTerm "b", IntNumberTerm 2)] (by decide)⟩

/-- C20: `mergeWithOverwrite` is not associative.  With "k" mapped to the object (x: 1)
in `a`, to the number 1 in `b` and to the object (y: 2) in `c`, merging `a` with `b`
first gives "k" mapped to (y: 2), merging `b` with `c` first gives "k" mapped to
(x: 1, y: 2); the two results are different mappings. -/
theorem C20_merge_not_associative :
    ∃ a b c : Object,
      Term.keysUnique (.Object a) = true ∧ Term.keysUnique (.Object b) = true
      ∧ Term.keysUnique (.Object c) = true
      ∧ (∃ o, Object.Get a (StringTerm "k") = some (.Object o))
      ∧ (∃ v, Object.Get b (StringTerm "k") = some v ∧ isObject v = false)
      ∧ (∃ o, Object.Get c (StringTerm "k") = some (.Object o))
      ∧ mergeWithOverwrite (mergeWithOverwrite a b) c
          = [(StringTerm "k", .Object [(StringTerm "y", IntNumberTerm 2)])]
      ∧ mergeWithOverwrite a (mergeWithOverwrite b c)
          = [(StringTerm "k",
              .Object [(StringTerm "x", IntNumberTerm 1), (StringTerm "y", IntNumberTerm 2)])]
      ∧ mergeWithOverwrite (mergeWithOverwrite a b) c
          ≠ mergeWithOverwrite a (mergeWithOverwrite b c)
      ∧ ¬ Object.Equal (mergeWithOverwrite (mergeWithOverwrite a b) c)
          (mergeWithOverwrite a (mergeWithOverwrite b c)) :=
  ⟨sampleKX, sampleK1, sampleKY, by decide, by decide, by decide, ⟨_, rfl⟩,
    ⟨_, rfl, rfl⟩, ⟨_, rfl⟩, by decide, by decide, by decide, by decide⟩

end topdown
